import Mathlib

/-!
Verification development for the Personal_Accounts ingestion pipeline
(`src/main.py` together with `create_sample_data` of `src/chart_visualizer.py`).

The pipeline is shallowly embedded: a raw tabular file (the parsed content of
a `.csv`/`.xlsx` file) is a `List (List Value)`, a pandas `DataFrame` is a
`Df` (column names plus rectangular rows of `Value` cells), and each Python
function of the pipeline becomes a Lean function of the same name.  Machine
floats are modelled as exact decimals (sign, integer digits, fraction
digits), python/pandas string coercions (`str`, `.strip()`, substring `in`)
are modelled on `List Char`.
-/

/-- `beginsWith p l` is true when the char list `p` is an initial segment of
`l` (helper for Python's substring test). -/
def beginsWith : List Char → List Char → Bool
  | [], _ => true
  | _ :: _, [] => false
  | p :: ps, c :: cs => p == c && beginsWith ps cs

/-- `containsSeq text pat` models Python's `pat in text` on char lists:
`pat` occurs contiguously somewhere in `text`. -/
def containsSeq : List Char → List Char → Bool
  | text, pat =>
    beginsWith pat text ||
      match text with
      | [] => false
      | _ :: t => containsSeq t pat

/-- Python's `needle in hay` on strings (contiguous substring test). -/
def pyIn (needle hay : String) : Bool :=
  containsSeq hay.toList needle.toList

/-- Characters removed by Python's `str.strip()` (default whitespace;
modelled as the ASCII whitespace characters, which is all the source data
contains). -/
def isPySpace (c : Char) : Bool :=
  c == ' ' || c == '\t' || c == '\n' || c == '\r' || c == '\x0b' || c == '\x0c'

/-- Python's `str.strip()`: drop leading and trailing whitespace. -/
def pyStrip (s : String) : String :=
  String.mk (((s.toList.dropWhile isPySpace).reverse.dropWhile isPySpace).reverse)

/-- Value of a decimal digit character, `none` for non-digits. -/
def charDigit (c : Char) : Option (Fin 10) :=
  if h : 48 ≤ c.toNat ∧ c.toNat < 58 then some ⟨c.toNat - 48, by omega⟩ else none

/-- The character of a decimal digit. -/
def digitChar (d : Fin 10) : Char :=
  Char.ofNat (48 + d.val)

/-- A cell value as pandas holds it: a raw string, a parsed datetime
(encoded as a single natural number that orders chronologically), an exact
signed decimal number (sign, integer digits most-significant first with no
leading zero, fraction digits with no trailing zero), or a null
(`NaN`/`NaT`). -/
inductive Value where
  | vstr (s : String)
  | vdate (t : Nat)
  | vnum (neg : Bool) (ip : List (Fin 10)) (fp : List (Fin 10))
  | vnull
deriving DecidableEq

open Value

/-- Numeric value of a digit character, assuming it is a digit. -/
def chVal (c : Char) : Nat := c.toNat - 48

/-- Number of days of a month (used to validate parsed dates as pandas
does). -/
def daysInMonth (y mo : Nat) : Nat :=
  if mo = 2 then
    (if y % 4 = 0 && (y % 100 != 0 || y % 400 = 0) then 29 else 28)
  else if mo = 4 || mo = 6 || mo = 9 || mo = 11 then 30
  else 31

/-- Encode a validated date-time as a single natural number; the encoding is
strictly monotone in the lexicographic (year, month, day, hour, minute,
second) order, which is all the pipeline uses a timestamp for. -/
def dateKey (y mo d h mi s : Nat) : Nat :=
  ((((y * 100 + mo) * 100 + d) * 100 + h) * 100 + mi) * 100 + s

/-- Model of `pd.to_datetime` string parsing, restricted to the
`YYYY-MM-DD HH:MM:SS` layout the two bill exports emit; any other string is
a coercion failure (`none`). -/
def parseDateTime (s : String) : Option Nat :=
  match s.toList with
  | [y1, y2, y3, y4, '-', m1, m2, '-', d1, d2, ' ', h1, h2, ':', i1, i2, ':', s1, s2] =>
    if (y1.isDigit && y2.isDigit && y3.isDigit && y4.isDigit &&
        m1.isDigit && m2.isDigit && d1.isDigit && d2.isDigit &&
        h1.isDigit && h2.isDigit && i1.isDigit && i2.isDigit &&
        s1.isDigit && s2.isDigit) then
      let y := ((chVal y1 * 10 + chVal y2) * 10 + chVal y3) * 10 + chVal y4
      let mo := chVal m1 * 10 + chVal m2
      let d := chVal d1 * 10 + chVal d2
      let h := chVal h1 * 10 + chVal h2
      let mi := chVal i1 * 10 + chVal i2
      let sec := chVal s1 * 10 + chVal s2
      if 1 ≤ mo && mo ≤ 12 && 1 ≤ d && d ≤ daysInMonth y mo &&
          h ≤ 23 && mi ≤ 59 && sec ≤ 59 then
        some (dateKey y mo d h mi sec)
      else none
    else none
  | _ => none

/-- Left-pad the decimal rendering of `n` with zeros to width `w` (for
rendering datetimes back to text). -/
def padNum (w n : Nat) : List Char :=
  let ds := (Nat.toDigits 10 n)
  List.replicate (w - ds.length) '0' ++ ds

/-- Render an encoded datetime the way `str` shows a pandas `Timestamp`,
`YYYY-MM-DD HH:MM:SS`. -/
def dateStr (t : Nat) : String :=
  String.mk (padNum 4 (t / 10000000000) ++ ['-'] ++ padNum 2 (t / 100000000 % 100) ++
    ['-'] ++ padNum 2 (t / 1000000 % 100) ++ [' '] ++ padNum 2 (t / 10000 % 100) ++
    [':'] ++ padNum 2 (t / 100 % 100) ++ [':'] ++ padNum 2 (t % 100))

/-- Take the longest initial run of digit characters. -/
def spanDigits : List Char → List (Fin 10) × List Char
  | [] => ([], [])
  | c :: t =>
    match charDigit c with
    | some d =>
      let r := spanDigits t
      (d :: r.1, r.2)
    | none => ([], c :: t)

/-- Canonical integer-digit list: no leading zeros (the empty list denotes
zero), as a float round-trips through pandas. -/
def canonIp (ds : List (Fin 10)) : List (Fin 10) :=
  ds.dropWhile (· == (0 : Fin 10))

/-- Canonical fraction-digit list: no trailing zeros (the empty list denotes
a zero fraction). -/
def canonFp (ds : List (Fin 10)) : List (Fin 10) :=
  ((ds.reverse).dropWhile (· == (0 : Fin 10))).reverse

/-- Split an optional leading minus sign off a numeric literal. -/
def splitNeg : List Char → Bool × List Char
  | '-' :: t => (true, t)
  | l => (false, l)

/-- Model of the float grammar `pd.to_numeric` accepts on the sanitized
amount strings (whose characters are only digits, `.` and `-` after the
regex strip): an optional leading minus, then digits containing at most one
decimal point and at least one digit.  Returns the canonical sign /
integer-digits / fraction-digits triple, or `none` for a parse failure. -/
def parseDec (l : List Char) : Option (Bool × List (Fin 10) × List (Fin 10)) :=
  let sgn := splitNeg l
  let ipr := spanDigits sgn.2
  match ipr.2 with
  | [] => if ipr.1.isEmpty then none else some (sgn.1, canonIp ipr.1, [])
  | '.' :: r2 =>
    let fpr := spanDigits r2
    if fpr.2.isEmpty then
      if ipr.1.isEmpty && fpr.1.isEmpty then none
      else some (sgn.1, canonIp ipr.1, canonFp fpr.1)
    else none
  | _ => none

/-- Number of leading zero digits of a fraction-digit list. -/
def leadZeros (ds : List (Fin 10)) : Nat :=
  (ds.takeWhile (· == (0 : Fin 10))).length

/-- Does Python's `str()` of this float use scientific notation?  CPython's
`repr` switches to it when the decimal exponent is at least 16 (17 or more
integer digits) or below -4 (a nonzero value starting with at least four
zero fraction digits): `str(1e16) = '1e+16'`, `str(0.00001) = '1e-05'`,
while `str(0.0001) = '0.0001'` stays plain. -/
def isSciRender (ip fp : List (Fin 10)) : Bool :=
  decide (17 ≤ ip.length) ||
    (ip.isEmpty && !fp.isEmpty && decide (4 ≤ leadZeros fp))

/-- The plain (positional) digits of a float's `str()`: integer digits
(`0` if none), a decimal point, and the fraction digits (`0` if none) —
e.g. `12.5`, `7.0`, `0.25`. -/
def plainDigits (ip fp : List (Fin 10)) : List Char :=
  (if ip.isEmpty then ['0'] else ip.map digitChar) ++ ['.'] ++
    (if fp.isEmpty then ['0'] else fp.map digitChar)

/-- The scientific-notation digits of a float's `str()`: the significant
digits as `d` or `d.dd…`, then `e`, the exponent sign, and the exponent
padded to two digits — e.g. `1e-05`, `1.23e+19`. -/
def sciDigits (ip fp : List (Fin 10)) : List Char :=
  let sig := if ip.isEmpty then fp.dropWhile (· == (0 : Fin 10)) else canonFp (ip ++ fp)
  let mant :=
    match sig with
    | [] => ['0']
    | d :: rest =>
      digitChar d :: (if rest.isEmpty then [] else '.' :: rest.map digitChar)
  let e := if ip.isEmpty then leadZeros fp + 1 else ip.length - 1
  mant ++ ['e'] ++ (if ip.isEmpty then ['-'] else ['+']) ++ padNum 2 e

/-- Render a canonical decimal the way `str` shows the float in a pandas
column: an optional minus, then either the plain positional form or — for
magnitudes at least `1e16` or below `1e-4` — CPython's scientific
notation. -/
def renderDec (neg : Bool) (ip fp : List (Fin 10)) : List Char :=
  (if neg then ['-'] else []) ++
    (if isSciRender ip fp then sciDigits ip fp else plainDigits ip fp)

/-- Python's `str()` of a cell value: strings are themselves, a null shows
as `nan`, datetimes and numbers render in their pandas textual form —
numbers through `renderDec`, which switches to scientific notation at the
same magnitudes CPython's float `repr` does. -/
def astypeStr : Value → String
  | vstr s => s
  | vnull => "nan"
  | vdate t => dateStr t
  | vnum neg ip fp => String.mk (renderDec neg ip fp)

/-- A raw tabular file as the pipeline reads it: the parsed rows of cells,
header not yet identified. -/
abbrev TabFile := List (List Value)

/-- The text of one raw row as `find_header_row` builds it:
`''.join(str(s) for s in row.values)`. -/
def rowText (r : List Value) : String :=
  String.join (r.map astypeStr)

/-- Does a raw row's concatenated text contain every keyword as a
substring? (`all(keyword in row_str for keyword in keywords)`). -/
def rowHasAllKeywords (r : List Value) (keywords : List String) : Bool :=
  keywords.all (fun k => pyIn k (rowText r))

/-- Scan rows in order, returning the index (offset by `i`) of the first row
containing all keywords. -/
def findHeaderAux (keywords : List String) : List (List Value) → Nat → Option Nat
  | [], _ => none
  | r :: t, i =>
    if rowHasAllKeywords r keywords then some i else findHeaderAux keywords t (i + 1)

/-- `find_header_row` of `src/main.py`: look at only the first
`max_rows_to_check` rows (the `nrows` bound of the peek read), concatenate
each row's cell texts, and return the zero-based index of the first row
whose text contains every keyword; `none` when no such row exists in the
window (file-open failures, which also return `None` in the source, are
outside this model of the already-parsed rows). -/
def find_header_row (file : TabFile) (keywords : List String)
    (max_rows_to_check : Nat := 30) : Option Nat :=
  findHeaderAux keywords (file.take max_rows_to_check) 0

/-! ## DataFrame model and the pandas operations the pipeline uses -/

/-- A pandas `DataFrame`: named columns and rectangular rows of cells. -/
structure Df where
  cols : List String
  rows : List (List Value)
deriving DecidableEq

/-- `c in df.columns`. -/
def Df.hasCol (df : Df) (c : String) : Bool :=
  df.cols.contains c

/-- Position of column `c` (first occurrence, as every pandas label lookup
resolves it). -/
def Df.colIdx (df : Df) (c : String) : Option Nat :=
  df.cols.findIdx? (· == c)

/-- Cell of a row at a column position (`vnull` out of range; rows are kept
rectangular so the default is never consulted on pipeline data). -/
def getCell (r : List Value) (i : Nat) : Value :=
  r.getD i vnull

/-- Pad or cut a raw data row to the header's width, as reading a delimited
file into a rectangular frame does (missing cells become `NaN`). -/
def conformRow (n : Nat) (r : List Value) : List Value :=
  r.take n ++ List.replicate (n - r.length) vnull

/-- Read a table from the raw file taking row `h` as the header
(`pd.read_csv(..., header=h)` / `pd.read_excel` after `skiprows`): the cells
of row `h`, as text, name the columns; the later rows are the data. -/
def readWithHeader (hdr : List Value) (data : List (List Value)) : Df :=
  { cols := hdr.map astypeStr
    rows := data.map (conformRow hdr.length) }

/-- `df.rename(columns=m)`: translate each column name through the mapping,
leaving names the mapping does not mention unchanged. -/
def Df.renameCols (df : Df) (m : List (String × String)) : Df :=
  { df with cols := df.cols.map (fun c => ((m.lookup c).getD c)) }

/-- `df[c] = v` with a constant `v`: overwrite column `c` in every row when
it exists, otherwise append it as a new last column. -/
def Df.setConstCol (df : Df) (c : String) (v : Value) : Df :=
  match df.cols.findIdx? (· == c) with
  | some i => { df with rows := df.rows.map (fun r => r.set i v) }
  | none => { cols := df.cols ++ [c], rows := df.rows.map (fun r => r ++ [v]) }

/-- `df = df[~mask]` for a boolean mask built from predicate `p` on column
`c` (followed by `reset_index(drop=True)`, invisible in this model): drop
every row whose `c` cell satisfies `p`.  No-op when the column is absent
(the source guards each use with `if c in df.columns`). -/
def Df.filterOutCol (df : Df) (c : String) (p : Value → Bool) : Df :=
  match df.cols.findIdx? (· == c) with
  | some i => { df with rows := df.rows.filter (fun r => !(p (getCell r i))) }
  | none => df

/-- `df[c] = f(df[c])` applied elementwise: rewrite the `c` cell of every
row.  No-op when the column is absent. -/
def Df.mapCol (df : Df) (c : String) (f : Value → Value) : Df :=
  match df.cols.findIdx? (· == c) with
  | some i => { df with rows := df.rows.map (fun r => r.set i (f (getCell r i))) }
  | none => df

/-- Does a row pass `dropna(how='any')` over the subset columns: every
subset cell (resolved against the column list) is non-null. -/
def dropnaPass (cols subset : List String) (r : List Value) : Bool :=
  subset.all (fun c =>
    match cols.findIdx? (· == c) with
    | some i => !(getCell r i == vnull)
    | none => true)

/-- `df.dropna(subset=subset, how='any')`: pandas raises `KeyError` when a
subset label is missing from the columns; otherwise it keeps exactly the
rows whose every subset cell is non-null. -/
def dropnaSubset (df : Df) (subset : List String) : Except String Df :=
  if subset.all (fun c => df.hasCol c) then
    .ok { df with rows := df.rows.filter (dropnaPass df.cols subset) }
  else .error "KeyError"

/-- Model of `pd.to_datetime(column, errors='coerce')` per cell: strings are
parsed (failure coerces to null), datetimes pass through, nulls stay null.
(A numeric cell, which pandas would read as an epoch offset, never occurs in
a bill's time column; it is modelled as a coercion failure.) -/
def pdToDatetime : Value → Value
  | vstr s =>
    match parseDateTime s with
    | some t => vdate t
    | none => vnull
  | vdate t => vdate t
  | vnum _ _ _ => vnull
  | vnull => vnull

/-- Characters kept by the amount sanitization regex
`str.replace(r'[^\d.-]', '', regex=True)`. -/
def keepNum (c : Char) : Bool :=
  c.isDigit || c == '.' || c == '-'

/-- The two amount-cleaning assignments of the source, composed per cell:
`astype(str)`, strip every character that is not a digit, dot or minus, then
`pd.to_numeric(..., errors='coerce')` (parse failure, including the empty
string, coerces to null). -/
def sanitizeAmount (v : Value) : Value :=
  match parseDec ((astypeStr v).toList.filter keepNum) with
  | some (neg, ip, fp) => vnum neg ip fp
  | none => vnull

/-- The shared record-normalization block both adapters end with
(`src/main.py` lines 65–75 and 123–133): coerce the time column, sanitize
the amount column (each only when present, as the source's `if` guards do),
then `dropna(subset=['交易时间', '金额'], how='any')`. -/
def normalizeRecords (df : Df) : Except String Df :=
  let d1 := if df.hasCol "交易时间" then df.mapCol "交易时间" pdToDatetime else df
  let d2 := if d1.hasCol "金额" then d1.mapCol "金额" sanitizeAmount else d1
  dropnaSubset d2 ["交易时间", "金额"]

/-! ## The two format adapters -/

/-- The WeChat neutral-transaction mask per cell:
`df['收/支'].astype(str).str.strip() == '/'`. -/
def wechatNeutral (v : Value) : Bool :=
  pyStrip (astypeStr v) == "/"

/-- The Alipay neutral-transaction mask per cell:
`df['收/支'].astype(str).str.contains('不计收支', na=False)`. -/
def alipayNeutral (v : Value) : Bool :=
  pyIn "不计收支" (astypeStr v)

/-- The WeChat column-rename table of `process_wechat_file`. -/
def wechatColumns : List (String × String) :=
  [("交易时间", "交易时间"), ("交易类型", "交易分类"), ("交易对方", "交易对方"),
   ("商品", "商品说明"), ("收/支", "收/支"), ("金额(元)", "金额"),
   ("支付方式", "收/付款方式")]

/-- `process_wechat_file` of `src/main.py`: read with the fixed offset
(`skiprows=16`, so raw row 16 is the header), rename columns, tag the
source, drop the rows whose stripped `收/支` text is exactly `/`, then run
the shared normalization.  The whole body sits in one `try/except` in the
source, so every failure — including the `KeyError` that
`dropna(subset=...)` raises when a required column is missing, and a file
too short to yield a header — becomes `None` (`none`). -/
def process_wechat_file (file : TabFile) : Option Df :=
  match file.drop 16 with
  | [] => none
  | hdr :: data =>
    let df := readWithHeader hdr data
    let df := df.renameCols wechatColumns
    let df := df.setConstCol "数据源" (vstr "微信支付")
    let df := if df.hasCol "收/支" then df.filterOutCol "收/支" wechatNeutral else df
    match normalizeRecords df with
    | .ok d => some d
    | .error _ => none

/-- The header keywords `process_alipay_file` passes to the locator. -/
def alipayKeywords : List String :=
  ["交易时间", "交易分类", "商品说明"]

/-- `process_alipay_file` of `src/main.py`: locate the header row (a miss is
reported and the file skipped, `ok none`), read taking that row as header,
tag the source, drop the rows whose `收/支` text contains `不计收支`, then
run the shared normalization.  Unlike the WeChat adapter, the source wraps
only the read in `try/except`: an exception in the normalization block —
pandas' `KeyError` from `dropna(subset=...)` when `交易时间` or `金额` is
not among the located columns — propagates out of the function
uncaught (`error`). -/
def process_alipay_file (file : TabFile) : Except String (Option Df) :=
  match find_header_row file alipayKeywords with
  | none => .ok none
  | some h =>
    match file.drop h with
    | [] => .ok none
    | hdr :: data =>
      let df := readWithHeader hdr data
      let df := df.setConstCol "数据源" (vstr "支付宝")
      let df := if df.hasCol "收/支" then df.filterOutCol "收/支" alipayNeutral else df
      (normalizeRecords df).map some

/-! ## The dataset merger -/

/-- Align one source row to the concatenated column list: for each target
column take the source's cell when the source has that column, `NaN`
otherwise (how `pd.concat` conforms frames with differing columns). -/
def alignRow (srcCols : List String) (r : List Value) (tgtCols : List String) :
    List Value :=
  tgtCols.map (fun c =>
    match srcCols.findIdx? (· == c) with
    | some i => getCell r i
    | none => vnull)

/-- Union of the column lists in order of first appearance (the column
order `pd.concat(..., ignore_index=True)` produces with its default
`sort=False`). -/
def unionCols (seen : List String) : List String → List String
  | [] => []
  | c :: t =>
    if seen.contains c then unionCols seen t
    else c :: unionCols (c :: seen) t

/-- `pd.concat(dfs, ignore_index=True)`: the columns are the first-appearance
union, and the rows are all frames' rows in order, aligned to it. -/
def concatDfs (dfs : List Df) : Df :=
  let cols := unionCols [] (dfs.flatMap (fun d => d.cols))
  { cols := cols
    rows := dfs.flatMap (fun d => d.rows.map (fun r => alignRow d.cols r cols)) }

/-- Row comparison used to sort the merged frame: compare the `交易时间`
cells at position `i`.  After the merge this column holds only parsed
datetimes (proved below), so only the `vdate`/`vdate` case is ever
exercised; the remaining cases return `true` to make the relation total. -/
def timeLeAt (i : Nat) (r1 r2 : List Value) : Bool :=
  match getCell r1 i, getCell r2 i with
  | vdate s, vdate t => s ≤ t
  | _, _ => true

/-- `combined_df.sort_values('交易时间', ascending=False)`.  Pandas sorts
descending by reversing the rows, arg-sorting ascending with the chosen
`kind`, and reversing again (`nargsort` in `pandas/core/sorting.py`); the
`kind` is modelled as a stable sort, which only fixes the order of rows with
equal timestamps — the set of rows and the descending timestamp order are
the same for every `kind`.  No-op when the column is absent (the source
guards with `if '交易时间' in combined_df.columns`). -/
def sortByTimeDesc (df : Df) : Df :=
  match df.cols.findIdx? (· == "交易时间") with
  | some i =>
    { df with
      rows := (df.rows.reverse.insertionSort (fun r1 r2 => timeLeAt i r1 r2)).reverse }
  | none => df

/-- One step of the merger's accumulation loops: a frame is appended only
when the adapter produced one and it is non-empty
(`if df is not None and not df.empty`). -/
def appendKept (acc : List Df) (res : Option Df) : List Df :=
  match res with
  | some d => if d.rows.isEmpty then acc else acc ++ [d]
  | none => acc

/-- The merger's first loop: process every WeChat file in glob order,
keeping the non-empty results.  `process_wechat_file` never raises. -/
def wechatLoop : List TabFile → List Df → List Df
  | [], acc => acc
  | f :: t, acc => wechatLoop t (appendKept acc (process_wechat_file f))

/-- The merger's second loop: process every Alipay file in glob order,
keeping the non-empty results; an exception escaping
`process_alipay_file` aborts the loop (nothing in `find_and_process_all_files`
catches it). -/
def alipayLoop : List TabFile → List Df → Except String (List Df)
  | [], acc => .ok acc
  | f :: t, acc =>
    match process_alipay_file f with
    | .error e => .error e
    | .ok res => alipayLoop t (appendKept acc res)

/-- `find_and_process_all_files` of `src/main.py`, over the already-globbed
file lists: WeChat `*.xlsx` matches first, then Alipay `*.csv` matches
followed by Alipay `*.xlsx` matches (`alipay_files = glob(csv);
alipay_files.extend(glob(xlsx))`).  `ok none` is the "no data" result
(`return None` when no frame was kept); otherwise the kept frames are
concatenated in loop order and sorted by timestamp descending. -/
def find_and_process_all_files (wechatFiles alipayCsvFiles alipayXlsxFiles :
    List TabFile) : Except String (Option Df) :=
  let ws := wechatLoop wechatFiles []
  match alipayLoop (alipayCsvFiles ++ alipayXlsxFiles) ws with
  | .error e => .error e
  | .ok all =>
    if all.isEmpty then .ok none
    else
      let combined := concatDfs all
      .ok (some (if combined.hasCol "交易时间" then sortByTimeDesc combined else combined))

/-! ## The caller's sample-data fallback (`create_sample_data` of
`src/chart_visualizer.py` and the `__main__` block of `src/main.py`) -/

/-- Decimal digits of a natural number, most significant first, no leading
zeros (`[]` for zero); fuel-structured so that it evaluates by reduction. -/
def digitsAux : Nat → Nat → List (Fin 10)
  | 0, _ => []
  | fuel + 1, n => if h : n = 0 then [] else digitsAux fuel (n / 10) ++ [⟨n % 10, by omega⟩]

/-- Decimal digits of `n`, most significant first (`[]` for zero). -/
def natDigits (n : Nat) : List (Fin 10) :=
  digitsAux n n

/-- One iteration's random draws in `create_sample_data`; the generator is
modelled as an oracle handing each iteration its picks
(`randint(0, 365)`, `choice([True, False])`, the two `choice`s over the
category and payment-method lists, and `randint` for the amount). -/
structure SampleDraw where
  dayOffset : Nat
  isIncome : Bool
  catPick : Nat
  amtPick : Nat
  payPick : Nat

/-- `income_categories` of `create_sample_data`. -/
def incomeCategories : List String :=
  ["工资", "奖金", "投资收益", "兼职收入", "其他收入"]

/-- `expense_categories` of `create_sample_data`. -/
def expenseCategories : List String :=
  ["餐饮", "交通", "购物", "娱乐", "房租", "水电费", "医疗", "教育"]

/-- `payment_methods` of `create_sample_data`. -/
def paymentMethods : List String :=
  ["支付宝", "微信支付", "银行卡", "现金", "信用卡"]

/-- Month lengths of 2024 (a leap year; every sampled date lands in 2024
since the offset from Jan 1 is at most 365 days). -/
def monthLens2024 : List Nat :=
  [31, 29, 31, 30, 31, 30, 31, 31, 30, 31, 30, 31]

/-- Convert a zero-based day offset into (month, day) by walking the month
lengths (models `datetime(2024, 1, 1) + timedelta(days=offset)`). -/
def dayToMD : Nat → List Nat → Nat → Nat × Nat
  | d, [], m => (m, d + 1)
  | d, len :: rest, m => if d < len then (m, d + 1) else dayToMD (d - len) rest (m + 1)

/-- One generated row of `create_sample_data`: the income branch draws a
category from the income list and an amount in `[3000, 15000]`, the expense
branch a category from the expense list and a negated amount in
`[50, 2000]`; `randint(a, b)` is modelled as `a + pick % (b - a + 1)` and
`choice(l)` as `l[pick % len(l)]`. -/
def mkSampleRow (dr : SampleDraw) : List Value :=
  let md := dayToMD (dr.dayOffset % 366) monthLens2024 1
  let date := vdate (dateKey 2024 md.1 md.2 0 0 0)
  if dr.isIncome then
    let category := incomeCategories.getD (dr.catPick % 5) ""
    let amount := 3000 + dr.amtPick % 12001
    [date, vstr category, vstr (category ++ "相关交易"), vstr "收入",
     vnum false (natDigits amount) [], vstr (paymentMethods.getD (dr.payPick % 5) "")]
  else
    let category := expenseCategories.getD (dr.catPick % 8) ""
    let amount := 50 + dr.amtPick % 1951
    [date, vstr category, vstr (category ++ "相关交易"), vstr "支出",
     vnum true (natDigits amount) [], vstr (paymentMethods.getD (dr.payPick % 5) "")]

/-- `create_sample_data` of `src/chart_visualizer.py`: exactly 200 generated
rows over the documented six columns, each row built from that iteration's
random draws. -/
def create_sample_data (draws : Nat → SampleDraw) : Df :=
  { cols := ["交易时间", "交易分类", "商品说明", "收/支", "金额", "收/付款方式"]
    rows := (List.range 200).map (fun i => mkSampleRow (draws i)) }

/-- The `__main__` block of `src/main.py`: run the merger; when it yields a
usable dataset (`is not None and not ... .empty`) hand that to the renderer,
otherwise substitute `create_sample_data()`.  An exception escaping the
merger still aborts the program. -/
def mainDataset (wechatFiles alipayCsvFiles alipayXlsxFiles : List TabFile)
    (draws : Nat → SampleDraw) : Except String Df :=
  match find_and_process_all_files wechatFiles alipayCsvFiles alipayXlsxFiles with
  | .error e => .error e
  | .ok (some d) => if d.rows.isEmpty then .ok (create_sample_data draws) else .ok d
  | .ok none => .ok (create_sample_data draws)

/-! ## Concrete fixtures -/

/-- A WeChat data row: transaction time, type, counterparty, item,
direction, amount and payment method, as the raw cells of one spreadsheet
row. -/
def wrow (time cat cp item dir amt pay : String) : List Value :=
  [vstr time, vstr cat, vstr cp, vstr item, vstr dir, vstr amt, vstr pay]

/-- The header row of a WeChat bill export (raw row 16 of the file). -/
def wechatHeader : List Value :=
  [vstr "交易时间", vstr "交易类型", vstr "交易对方", vstr "商品",
   vstr "收/支", vstr "金额(元)", vstr "支付方式"]

/-- A preamble row of the 16-row fixed prelude of a WeChat export. -/
def junkRow : List Value := [vstr "微信支付账单明细"]

/-- The C6 scenario file: the 16-row prelude, the header, then 20 data rows —
ten valid expenses, three rows whose direction cell is exactly the neutral
sentinel `/`, two rows whose amount text (`待确认`) has no numeric content
left after sanitization, and five valid incomes. -/
def c6File : TabFile :=
  List.replicate 16 junkRow ++ [wechatHeader] ++
  (List.range 10).map (fun i =>
    wrow ("2024-03-0" ++ toString (i % 9 + 1) ++ " 08:00:00")
      "商户消费" "商户甲" "商品A" "支出" "¥12.30" "零钱") ++
  [wrow "2024-03-10 09:00:00" "转账" "商户乙" "商品B" "/" "¥5.00" "零钱",
   wrow "2024-03-11 09:00:00" "转账" "商户乙" "商品B" "/" "¥5.00" "零钱",
   wrow "2024-03-12 09:00:00" "转账" "商户乙" "商品B" "/" "¥5.00" "零钱",
   wrow "2024-03-13 10:00:00" "商户消费" "商户丙" "商品C" "支出" "待确认" "零钱",
   wrow "2024-03-14 10:00:00" "商户消费" "商户丙" "商品C" "支出" "待确认" "零钱"] ++
  (List.range 5).map (fun i =>
    wrow ("2024-03-2" ++ toString (i % 9) ++ " 18:30:00")
      "商户消费" "商户丁" "商品D" "收入" "120.50" "银行卡")

/-- The 20 data rows of the C6 scenario file (everything after the prelude
and the header row). -/
def c6DataRows : List (List Value) :=
  c6File.drop 17

/-- C6: on a fixed-offset (WeChat) file with 20 data rows — exactly 3 of
them carrying the neutral sentinel `/` in the direction cell, exactly 2
others with an amount that fails numeric parsing after sanitization, and all
rows otherwise valid — the adapter outputs exactly 15 records. -/
theorem c6_fixed_offset_scenario :
    c6DataRows.length = 20 ∧
    (c6DataRows.filter (fun r => wechatNeutral (getCell r 4))).length = 3 ∧
    (c6DataRows.filter (fun r =>
      !(wechatNeutral (getCell r 4)) && sanitizeAmount (getCell r 5) == vnull)).length = 2 ∧
    (c6DataRows.filter (fun r =>
      !(wechatNeutral (getCell r 4)) && !(sanitizeAmount (getCell r 5) == vnull) &&
      !(pdToDatetime (getCell r 0) == vnull))).length = 15 ∧
    (process_wechat_file c6File).map (fun d => d.rows.length) = some 15 := by
  decide

/-! ## C1: the header locator -/

/-- Characterization of the scanning loop of `find_header_row`: it returns
`i0 + k` exactly when row `k` is the first row of the scanned window that
contains all keywords. -/
theorem findHeaderAux_some_iff (kws : List String) (rows : List (List Value)) :
    ∀ (i0 j : Nat), findHeaderAux kws rows i0 = some j ↔
      ∃ k, k < rows.length ∧ j = i0 + k ∧
        rowHasAllKeywords (rows.getD k []) kws = true ∧
        ∀ m, m < k → rowHasAllKeywords (rows.getD m []) kws = false := by
  induction rows with
  | nil => intro i0 j; simp [findHeaderAux]
  | cons r t ih =>
    intro i0 j
    by_cases h : rowHasAllKeywords r kws = true
    · simp only [findHeaderAux, h, if_true, Option.some.injEq]
      constructor
      · rintro rfl
        exact ⟨0, by simp, by omega, by simpa using h, by omega⟩
      · rintro ⟨k, hk, rfl, hmatch, hmin⟩
        match k with
        | 0 => omega
        | k + 1 => exact absurd (hmin 0 (by omega)) (by simpa using h)
    · simp only [findHeaderAux, h, Bool.false_eq_true, if_false]
      rw [ih (i0 + 1) j]
      constructor
      · rintro ⟨k, hk, rfl, hmatch, hmin⟩
        refine ⟨k + 1, by simpa using hk, by omega, by simpa using hmatch, ?_⟩
        intro m hm
        match m with
        | 0 => simpa using h
        | m + 1 => exact hmin m (by omega)
      · rintro ⟨k, hk, rfl, hmatch, hmin⟩
        match k with
        | 0 => exact absurd hmatch (by simpa using h)
        | k + 1 =>
          exact ⟨k, by simpa using hk, by omega, by simpa using hmatch,
            fun m hm => hmin (m + 1) (by omega)⟩

/-- `getD` of a taken initial segment agrees with the full list inside the
window. -/
theorem getD_take {α : Type} (l : List α) (d : α) (n k : Nat) (h : k < n) :
    (l.take n).getD k d = l.getD k d := by
  simp [List.getD_eq_getElem?_getD, List.getElem?_take, h]

/-- C1: for every tabular input file and non-empty keyword set, the header
locator returns the zero-based index of the first row within the first 30
rows whose concatenated cell text contains every keyword as a substring
(AND semantics, exact substring match); and it returns not-found exactly
when no row of that 30-row window qualifies — regardless of any later row
(such as row 35) where the keywords do co-occur. -/
theorem c1_header_locator_spec (file : TabFile) (keywords : List String)
    (hkw : keywords ≠ []) :
    (∀ i, find_header_row file keywords = some i ↔
        (i < 30 ∧ i < file.length ∧
         rowHasAllKeywords (file.getD i []) keywords = true ∧
         ∀ j, j < i → rowHasAllKeywords (file.getD j []) keywords = false)) ∧
    (find_header_row file keywords = none ↔
        ∀ i, i < 30 → i < file.length →
          rowHasAllKeywords (file.getD i []) keywords = false) := by
  have part1 : ∀ i, find_header_row file keywords = some i ↔
      (i < 30 ∧ i < file.length ∧
       rowHasAllKeywords (file.getD i []) keywords = true ∧
       ∀ j, j < i → rowHasAllKeywords (file.getD j []) keywords = false) := by
    intro i
    rw [show find_header_row file keywords = findHeaderAux keywords (file.take 30) 0 from rfl,
      findHeaderAux_some_iff]
    constructor
    · rintro ⟨k, hklen, hik, hmatch, hmin⟩
      have hk30 : k < 30 ∧ k < file.length := by
        rw [List.length_take] at hklen
        omega
      have hik' : i = k := by omega
      subst hik'
      refine ⟨hk30.1, hk30.2, ?_, ?_⟩
      · rwa [getD_take _ _ _ _ hk30.1] at hmatch
      · intro j hj
        have := hmin j hj
        rwa [getD_take _ _ _ _ (by omega)] at this
    · rintro ⟨h30, hlen, hmatch, hmin⟩
      refine ⟨i, ?_, by omega, ?_, ?_⟩
      · rw [List.length_take]; omega
      · rwa [getD_take _ _ _ _ h30]
      · intro m hm
        rw [getD_take _ _ _ _ (by omega)]
        exact hmin m hm
  refine ⟨part1, ?_, ?_⟩
  · intro hnone i h30 hlen
    by_contra hmatch
    have hex : ∃ k, k < 30 ∧ k < file.length ∧
        rowHasAllKeywords (file.getD k []) keywords = true :=
      ⟨i, h30, hlen, by simpa using hmatch⟩
    have hm := Nat.find_spec hex
    have : find_header_row file keywords = some (Nat.find hex) := by
      refine (part1 _).mpr ⟨hm.1, hm.2.1, hm.2.2, ?_⟩
      intro j hj
      have hnot := Nat.find_min hex hj
      by_contra hj'
      exact hnot ⟨by omega, by omega, by simpa using hj'⟩
    rw [hnone] at this
    exact Option.noConfusion this
  · intro hall
    cases h : find_header_row file keywords with
    | none => rfl
    | some i =>
      obtain ⟨h30, hlen, hmatch, -⟩ := (part1 i).mp h
      rw [hall i h30 hlen] at hmatch
      exact Bool.noConfusion hmatch

/-- The C1 demonstration file: 35 preamble rows, then a row (index 35) where
the two keywords finally co-occur — outside the 30-row window. -/
def c1File : TabFile :=
  (List.range 35).map (fun i => [vstr "流水记录", vstr (toString i)]) ++
    [[vstr "甲栏目", vstr "乙栏目"]]

/-- C1 witness: on the demonstration file whose keywords only co-occur at
row 35, the locator (applied through `c1_header_locator_spec` with its
non-empty keyword set) reports not-found. -/
theorem c1_header_locator_spec_witness :
    find_header_row c1File ["甲栏目", "乙栏目"] = none ∧
    rowHasAllKeywords (c1File.getD 35 []) ["甲栏目", "乙栏目"] = true :=
  ⟨(c1_header_locator_spec c1File ["甲栏目", "乙栏目"] (by decide)).2.mpr (by decide),
   by decide⟩

/-! ## C3: idempotence of the record normalizer -/

/-- Reading back the character of a digit gives the digit. -/
theorem charDigit_digitChar : ∀ d : Fin 10, charDigit (digitChar d) = some d := by
  decide

/-- Digit characters survive the amount-sanitization strip. -/
theorem keepNum_digitChar : ∀ d : Fin 10, keepNum (digitChar d) = true := by
  decide

/-- `spanDigits` consumes exactly a rendered digit block when what follows
does not start with a digit. -/
theorem spanDigits_digits (ds : List (Fin 10)) (rest : List Char)
    (h : ∀ c t, rest = c :: t → charDigit c = none) :
    spanDigits (ds.map digitChar ++ rest) = (ds, rest) := by
  induction ds with
  | nil =>
    cases rest with
    | nil => rfl
    | cons c t => simp [spanDigits, h c t rfl]
  | cons d ds ih =>
    simp [spanDigits, charDigit_digitChar, ih]

/-- `canonIp` is idempotent. -/
theorem canonIp_idem (ds : List (Fin 10)) : canonIp (canonIp ds) = canonIp ds := by
  simp [canonIp, List.dropWhile_idempotent]

/-- `canonFp` is idempotent. -/
theorem canonFp_idem (ds : List (Fin 10)) : canonFp (canonFp ds) = canonFp ds := by
  simp [canonFp, List.dropWhile_idempotent]


/-- `splitNeg` leaves a list alone when its head is not a minus sign. -/
theorem splitNeg_cons_ne (c : Char) (t : List Char) (h : ¬ c = '-') :
    splitNeg (c :: t) = (false, c :: t) := by
  unfold splitNeg
  split
  · next heq => rw [List.cons.injEq] at heq; exact absurd heq.1 h
  · rfl

/-- No digit character is the minus sign. -/
theorem digitChar_ne_minus : ∀ d : Fin 10, ¬ digitChar d = '-' := by decide

/-- Evaluation of the float parser on a rendered sign/digits/point/digits
shape. -/
theorem parseDec_eval (neg : Bool) (ipd fpd : List (Fin 10)) (hne : ipd.isEmpty = false) :
    parseDec ((if neg then ['-'] else []) ++ (ipd.map digitChar ++ '.' :: fpd.map digitChar)) =
      some (neg, canonIp ipd, canonFp fpd) := by
  have hspan : spanDigits (ipd.map digitChar ++ '.' :: fpd.map digitChar) =
      (ipd, '.' :: fpd.map digitChar) := by
    apply spanDigits_digits
    intro c t hct
    rw [List.cons.injEq] at hct
    rw [← hct.1]; decide
  have hspanf : spanDigits (fpd.map digitChar) = (fpd, []) := by
    have := spanDigits_digits fpd [] (by intro c t hct; simp at hct)
    simpa using this
  have hsplit : splitNeg ((if neg then ['-'] else []) ++
      (ipd.map digitChar ++ '.' :: fpd.map digitChar)) =
      (neg, ipd.map digitChar ++ '.' :: fpd.map digitChar) := by
    cases neg with
    | true => rfl
    | false =>
      simp only [if_neg (by simp : ¬ (false = true)), List.nil_append]
      cases ipd with
      | nil => simp at hne
      | cons d ds =>
        simp only [List.map_cons, List.cons_append]
        exact splitNeg_cons_ne _ _ (digitChar_ne_minus d)
  simp only [parseDec, hsplit, hspan, hspanf]
  simp [hne]

/-- The float parser is a left inverse of the float renderer on canonical
digit lists, as long as the value re-renders in plain (non-scientific)
notation: parsing that textual form returns the very same number.  (A
scientific rendering such as `1e-05` does not round-trip: its sanitized
form `1-05` fails the parse.) -/
theorem parseDec_renderDec (neg : Bool) (ip fp : List (Fin 10))
    (hip : canonIp ip = ip) (hfp : canonFp fp = fp)
    (hsci : isSciRender ip fp = false) :
    parseDec (renderDec neg ip fp) = some (neg, ip, fp) := by
  have hz : (['0'] : List Char) = List.map digitChar [0] := by decide
  have hshape : renderDec neg ip fp = (if neg then ['-'] else []) ++
      ((if ip.isEmpty then [(0 : Fin 10)] else ip).map digitChar ++
        '.' :: (if fp.isEmpty then [(0 : Fin 10)] else fp).map digitChar) := by
    rw [renderDec, hsci]
    simp only [Bool.false_eq_true, if_false, plainDigits]
    by_cases h1 : ip.isEmpty <;> by_cases h2 : fp.isEmpty <;>
      simp [h1, h2, hz, List.append_assoc]
  have hne : (if ip.isEmpty then [(0 : Fin 10)] else ip).isEmpty = false := by
    by_cases h1 : ip.isEmpty <;> simp [h1]
  rw [hshape, parseDec_eval _ _ _ hne]
  have hci : canonIp (if ip.isEmpty then [(0 : Fin 10)] else ip) = ip := by
    by_cases h1 : ip.isEmpty
    · rw [if_pos h1, List.isEmpty_iff.mp h1]; decide
    · rw [if_neg h1, hip]
  have hcf : canonFp (if fp.isEmpty then [(0 : Fin 10)] else fp) = fp := by
    by_cases h2 : fp.isEmpty
    · rw [if_pos h2, List.isEmpty_iff.mp h2]; decide
    · rw [if_neg h2, hfp]
  rw [hci, hcf]

/-- Whatever the float parser returns is canonical: its digit lists are
fixed points of the canonicalizers. -/
theorem parseDec_canon (l : List Char) (n : Bool) (ip fp : List (Fin 10))
    (h : parseDec l = some (n, ip, fp)) : canonIp ip = ip ∧ canonFp fp = fp := by
  simp only [parseDec] at h
  split at h
  · split at h
    · exact absurd h (by simp)
    · simp only [Option.some.injEq, Prod.mk.injEq] at h
      obtain ⟨-, h2, h3⟩ := h
      subst h2; subst h3
      exact ⟨canonIp_idem _, rfl⟩
  · split at h
    · split at h
      · exact absurd h (by simp)
      · simp only [Option.some.injEq, Prod.mk.injEq] at h
        obtain ⟨-, h2, h3⟩ := h
        subst h2; subst h3
        exact ⟨canonIp_idem _, canonFp_idem _⟩
    · exact absurd h (by simp)
  · exact absurd h (by simp)

/-- Every character of a plainly rendered float survives the sanitization
strip (a scientific rendering loses its `e` and any `+`). -/
theorem filter_keepNum_renderDec (n : Bool) (ip fp : List (Fin 10))
    (hsci : isSciRender ip fp = false) :
    (renderDec n ip fp).filter keepNum = renderDec n ip fp := by
  apply List.filter_eq_self.mpr
  intro c hc
  rw [renderDec, hsci] at hc
  simp only [Bool.false_eq_true, if_false, plainDigits] at hc
  simp only [List.mem_append] at hc
  rcases hc with h | ((h | h) | h)
  · cases n with
    | true => simp at h; subst h; decide
    | false => simp at h
  · by_cases h1 : ip.isEmpty
    · rw [if_pos h1] at h; simp at h; subst h; decide
    · rw [if_neg h1] at h
      obtain ⟨d, -, rfl⟩ := List.mem_map.mp h
      exact keepNum_digitChar d
  · simp at h; subst h; decide
  · by_cases h2 : fp.isEmpty
    · rw [if_pos h2] at h; simp at h; subst h; decide
    · rw [if_neg h2] at h
      obtain ⟨d, -, rfl⟩ := List.mem_map.mp h
      exact keepNum_digitChar d

/-- Sanitizing an already-sanitized (canonical) number that re-renders
plainly gives it back. -/
theorem sanitizeAmount_vnum_fix (n : Bool) (ip fp : List (Fin 10))
    (hip : canonIp ip = ip) (hfp : canonFp fp = fp)
    (hsci : isSciRender ip fp = false) :
    sanitizeAmount (vnum n ip fp) = vnum n ip fp := by
  show (match parseDec ((astypeStr (vnum n ip fp)).toList.filter keepNum) with
    | some (neg, ip, fp) => vnum neg ip fp
    | none => vnull) = vnum n ip fp
  rw [show (astypeStr (vnum n ip fp)).toList = renderDec n ip fp from rfl,
    filter_keepNum_renderDec n ip fp hsci, parseDec_renderDec n ip fp hip hfp hsci]

/-- The sanitizer returns null or a canonical number. -/
theorem sanitizeAmount_shape (v : Value) :
    sanitizeAmount v = vnull ∨
      ∃ n ip fp, sanitizeAmount v = vnum n ip fp ∧ canonIp ip = ip ∧ canonFp fp = fp := by
  unfold sanitizeAmount
  cases h : parseDec ((astypeStr v).toList.filter keepNum) with
  | none => exact Or.inl rfl
  | some t =>
    obtain ⟨n, ip, fp⟩ := t
    obtain ⟨h1, h2⟩ := parseDec_canon _ _ _ _ h
    exact Or.inr ⟨n, ip, fp, rfl, h1, h2⟩

/-- A sanitizer output that re-renders plainly is a fixed point of the
sanitizer.  (One that re-renders scientifically is not — see the C3
counterexample.) -/
theorem sanitizeAmount_plain_fix (v : Value) (n : Bool) (ip fp : List (Fin 10))
    (h : sanitizeAmount v = vnum n ip fp) (hsci : isSciRender ip fp = false) :
    sanitizeAmount (vnum n ip fp) = vnum n ip fp := by
  rcases sanitizeAmount_shape v with h0 | ⟨n2, ip2, fp2, h0, hip, hfp⟩
  · rw [h0] at h
    exact absurd h (by simp)
  · rw [h0] at h
    injection h with h1 h2 h3
    subst h1
    subst h2
    subst h3
    exact sanitizeAmount_vnum_fix _ _ _ hip hfp hsci

/-- The timestamp coercion of the normalizer is idempotent per cell. -/
theorem pdToDatetime_idem (v : Value) :
    pdToDatetime (pdToDatetime v) = pdToDatetime v := by
  cases v with
  | vstr s =>
    cases h : parseDateTime s with
    | none => simp [pdToDatetime, h]
    | some t => simp [pdToDatetime, h]
  | vdate t => rfl
  | vnum n ip fp => rfl
  | vnull => rfl

/-- Setting one cell leaves the other cells unchanged. -/
theorem getCell_set_ne (r : List Value) (i j : Nat) (v : Value) (h : i ≠ j) :
    getCell (r.set i v) j = getCell r j := by
  simp [getCell, List.getD_eq_getElem?_getD, List.getElem?_set_ne h]

/-- Writing a cell's own value back is a no-op. -/
theorem set_getCell_self (r : List Value) (i : Nat) :
    r.set i (getCell r i) = r := by
  induction r generalizing i with
  | nil => rfl
  | cons a t ih =>
    cases i with
    | zero => rfl
    | succ n =>
      show a :: t.set n (getCell (a :: t) (n + 1)) = a :: t
      rw [show getCell (a :: t) (n + 1) = getCell t n from rfl, ih n]

/-- Reading a freshly set cell: either the write landed (in range) or the
row was too short, the write was a no-op, and the cell reads null. -/
theorem getCell_set_eval (r : List Value) (i : Nat) (v : Value) :
    getCell (r.set i v) i = v ∨ (r.set i v = r ∧ getCell r i = vnull) := by
  by_cases h : i < r.length
  · left
    simp [getCell, List.getD_eq_getElem?_getD, List.getElem?_set_self h]
  · right
    refine ⟨List.set_eq_of_length_le (by omega), ?_⟩
    simp [getCell, List.getD_eq_getElem?_getD, List.getElem?_eq_none (by omega : r.length ≤ i)]

/-- `mapCol` never changes the column names. -/
theorem Df.mapCol_cols (df : Df) (c : String) (f : Value → Value) :
    (df.mapCol c f).cols = df.cols := by
  unfold Df.mapCol
  split <;> rfl

/-- `mapCol` on a present column rewrites that cell of every row. -/
theorem Df.mapCol_rows_of_idx (df : Df) (c : String) (f : Value → Value) (i : Nat)
    (h : df.cols.findIdx? (· == c) = some i) :
    (df.mapCol c f).rows = df.rows.map (fun r => r.set i (f (getCell r i))) := by
  simp [Df.mapCol, h]

/-- A contained column name has a first index. -/
theorem hasCol_findIdx? (l : List String) (c : String) (h : l.contains c = true) :
    ∃ i, l.findIdx? (· == c) = some i := by
  rw [List.contains_iff_exists_mem_beq] at h
  obtain ⟨a, ha, hbeq⟩ := h
  rw [beq_iff_eq] at hbeq
  exact ⟨_, List.findIdx?_eq_some_of_exists ⟨a, ha, by rw [beq_iff_eq]; exact hbeq.symm⟩⟩

/-- The column name at a found index is the name searched for. -/
theorem findIdx?_beq_getD (l : List String) (c : String) (i : Nat)
    (h : l.findIdx? (· == c) = some i) : i < l.length ∧ l.getD i "" = c := by
  rw [List.findIdx?_eq_some_iff_findIdx_eq] at h
  obtain ⟨h1, h2⟩ := h
  subst h2
  refine ⟨h1, ?_⟩
  have hp := @List.findIdx_getElem _ (· == c) l h1
  rw [List.getD_eq_getElem?_getD, List.getElem?_eq_getElem h1]
  simpa [beq_iff_eq] using hp

/-- `mapCol` preserves column membership. -/
theorem Df.hasCol_mapCol (df : Df) (c c' : String) (f : Value → Value) :
    (df.mapCol c f).hasCol c' = df.hasCol c' := by
  unfold Df.hasCol
  rw [Df.mapCol_cols]

/-- The `dropna` guard over the two required columns, reduced to the two
membership tests. -/
theorem dropna_guard_eq (x df : Df) (hx : x.cols = df.cols) :
    (["交易时间", "金额"].all fun c => x.hasCol c) =
      (df.hasCol "交易时间" && df.hasCol "金额") := by
  simp [List.all_cons, List.all_nil, Df.hasCol, hx, Bool.and_true]

/-- Unfolding of a successful `normalizeRecords` run: both required columns
are present, the columns are unchanged, and the surviving rows are the
coerced rows that pass the null filter. -/
theorem normalizeRecords_ok_spec (df d : Df) (h : normalizeRecords df = .ok d) :
    d.cols = df.cols ∧ df.hasCol "交易时间" = true ∧ df.hasCol "金额" = true ∧
    ∃ it im, df.cols.findIdx? (· == "交易时间") = some it ∧
      df.cols.findIdx? (· == "金额") = some im ∧ it ≠ im ∧
      d.rows = (df.rows.map (fun r =>
        let r1 := r.set it (pdToDatetime (getCell r it))
        r1.set im (sanitizeAmount (getCell r1 im)))).filter
        (dropnaPass df.cols ["交易时间", "金额"]) := by
  have hTM : df.hasCol "交易时间" = true ∧ df.hasCol "金额" = true := by
    by_contra hcon
    simp only [normalizeRecords] at h
    set d1 := if df.hasCol "交易时间" = true then df.mapCol "交易时间" pdToDatetime else df
      with hd1
    set d2 := if d1.hasCol "金额" = true then d1.mapCol "金额" sanitizeAmount else d1 with hd2
    have hc1 : d1.cols = df.cols := by
      rw [hd1]; split
      · rw [Df.mapCol_cols]
      · rfl
    have hc2 : d2.cols = df.cols := by
      rw [hd2]; split
      · rw [Df.mapCol_cols, hc1]
      · exact hc1
    unfold dropnaSubset at h
    rw [dropna_guard_eq d2 df hc2] at h
    rw [if_neg (by
      intro hand
      rw [Bool.and_eq_true] at hand
      exact hcon hand)] at h
    exact absurd h (by simp)
  obtain ⟨hT, hM⟩ := hTM
  have hM1 : Df.hasCol (df.mapCol "交易时间" pdToDatetime) "金额" = true := by
    rw [Df.hasCol_mapCol]; exact hM
  simp only [normalizeRecords, if_pos hT, if_pos hM1] at h
  obtain ⟨it, hit⟩ := hasCol_findIdx? df.cols "交易时间" hT
  obtain ⟨im, him⟩ := hasCol_findIdx? df.cols "金额" hM
  have hne : it ≠ im := by
    intro hcontra
    have h1 := (findIdx?_beq_getD _ _ _ hit).2
    have h2 := (findIdx?_beq_getD _ _ _ him).2
    rw [hcontra] at h1
    rw [h1] at h2
    exact absurd h2 (by decide)
  have hcols2 : ((df.mapCol "交易时间" pdToDatetime).mapCol "金额" sanitizeAmount).cols
      = df.cols := by
    rw [Df.mapCol_cols, Df.mapCol_cols]
  unfold dropnaSubset at h
  rw [dropna_guard_eq _ df hcols2, if_pos (by rw [hT, hM]; rfl)] at h
  rw [Except.ok.injEq] at h
  subst h
  refine ⟨hcols2, hT, hM, it, im, hit, him, hne, ?_⟩
  rw [hcols2]
  rw [Df.mapCol_rows_of_idx _ _ _ im (by rw [Df.mapCol_cols]; exact him),
    Df.mapCol_rows_of_idx _ _ _ it hit, List.map_map]
  rfl

/-- Rebuilding a frame from provably equal parts. -/
theorem Df.eq_of_parts (a : Df) (c : List String) (r : List (List Value))
    (h1 : c = a.cols) (h2 : r = a.rows) : Df.mk c r = a := by
  cases a
  cases h1
  cases h2
  rfl

/-- `sanitizeAmount` maps null to null (`str(nan)` strips to the empty
string, which fails to parse). -/
theorem sanitizeAmount_vnull : sanitizeAmount vnull = vnull := by decide

/-- Does every numeric amount cell of the frame re-render in plain
(non-scientific) notation?  This is the condition under which the amount
round-trips through `astype(str)`: Python renders magnitudes of at least
`1e16` or below `1e-4` scientifically, and those strings do not survive a
second sanitization. -/
def plainAmounts (d : Df) : Bool :=
  match d.cols.findIdx? (· == "金额") with
  | some im =>
    d.rows.all (fun r =>
      match getCell r im with
      | vnum _ ip fp => !(isSciRender ip fp)
      | _ => true)
  | none => true

/-- Unpacking `plainAmounts`: a numeric amount cell of such a frame is not
rendered scientifically. -/
theorem plainAmounts_spec (d : Df) (h : plainAmounts d = true) (im : Nat)
    (him : d.cols.findIdx? (· == "金额") = some im) (r : List Value)
    (hr : r ∈ d.rows) (n : Bool) (ip fp : List (Fin 10))
    (hv : getCell r im = vnum n ip fp) : isSciRender ip fp = false := by
  unfold plainAmounts at h
  rw [him] at h
  dsimp only at h
  have h2 := (List.all_eq_true.mp h) r hr
  rw [hv] at h2
  simpa using h2

/-- C3 (amended): the record normalizer is idempotent on every normalized
output whose amounts all re-render in plain decimal notation (zero or
magnitude in `[1e-4, 1e16)`) — running the normalization steps again on
such an output drops no rows and changes no values.  (Without the
plain-rendering condition idempotence fails; see the counterexample.) -/
theorem c3_normalizer_idempotent_plain (df d : Df)
    (h : normalizeRecords df = .ok d) (hplain : plainAmounts d = true) :
    normalizeRecords d = .ok d := by
  obtain ⟨hcols, hT, hM, it, im, hit, him, hne, hrows⟩ := normalizeRecords_ok_spec df d h
  have hrowfix : ∀ r ∈ d.rows,
      (r.set it (pdToDatetime (getCell r it)) = r) ∧
      (r.set im (sanitizeAmount (getCell r im)) = r) ∧
      dropnaPass df.cols ["交易时间", "金额"] r = true := by
    intro r hr
    have hrd := hr
    rw [hrows] at hrd
    obtain ⟨hr1, hpass⟩ := List.mem_filter.mp hrd
    obtain ⟨r0, hr0, heq⟩ := List.mem_map.mp hr1
    simp only at heq
    have hTfix : pdToDatetime (getCell r it) = getCell r it := by
      have e1 : getCell r it = getCell (r0.set it (pdToDatetime (getCell r0 it))) it := by
        rw [← heq]
        exact getCell_set_ne _ im it _ (Ne.symm hne)
      rcases getCell_set_eval r0 it (pdToDatetime (getCell r0 it)) with h2 | ⟨h2, h3⟩
      · rw [e1, h2, pdToDatetime_idem]
      · rw [e1, h2, h3]
        rfl
    have hMfix : sanitizeAmount (getCell r im) = getCell r im := by
      rcases getCell_set_eval (r0.set it (pdToDatetime (getCell r0 it))) im
          (sanitizeAmount (getCell (r0.set it (pdToDatetime (getCell r0 it))) im)) with
        h2 | ⟨h2, h3⟩
      · rw [heq] at h2
        rcases sanitizeAmount_shape (getCell (r0.set it (pdToDatetime (getCell r0 it))) im)
            with hs | ⟨n, ip, fp, hs, -, -⟩
        · rw [h2, hs, sanitizeAmount_vnull]
        · have hval : getCell r im = vnum n ip fp := by rw [h2, hs]
          have hsci : isSciRender ip fp = false :=
            plainAmounts_spec d hplain im (by rw [hcols]; exact him) r hr n ip fp hval
          rw [hval]
          exact sanitizeAmount_plain_fix _ n ip fp hs hsci
      · rw [← heq, h2, h3, sanitizeAmount_vnull]
    refine ⟨?_, ?_, hpass⟩
    · rw [hTfix, set_getCell_self]
    · rw [hMfix, set_getCell_self]
  have hTd : d.hasCol "交易时间" = true := by
    unfold Df.hasCol
    rw [hcols]
    exact hT
  have hMd : d.hasCol "金额" = true := by
    unfold Df.hasCol
    rw [hcols]
    exact hM
  have hM1 : Df.hasCol (d.mapCol "交易时间" pdToDatetime) "金额" = true := by
    rw [Df.hasCol_mapCol]
    exact hMd
  have hitd : d.cols.findIdx? (· == "交易时间") = some it := by rw [hcols]; exact hit
  have himd : d.cols.findIdx? (· == "金额") = some im := by rw [hcols]; exact him
  simp only [normalizeRecords, if_pos hTd, if_pos hM1]
  have hrows2 : ((d.mapCol "交易时间" pdToDatetime).mapCol "金额" sanitizeAmount).rows
      = d.rows := by
    rw [Df.mapCol_rows_of_idx _ _ _ im (by rw [Df.mapCol_cols]; exact himd),
      Df.mapCol_rows_of_idx _ _ _ it hitd, List.map_map]
    have : ∀ r ∈ d.rows,
        ((fun r => r.set im (sanitizeAmount (getCell r im))) ∘
          fun r => r.set it (pdToDatetime (getCell r it))) r = id r := by
      intro r hr
      obtain ⟨f1, f2, -⟩ := hrowfix r hr
      simp only [Function.comp, id]
      rw [f1, f2]
    rw [List.map_congr_left this, List.map_id]
  have hcols3 : ((d.mapCol "交易时间" pdToDatetime).mapCol "金额" sanitizeAmount).cols
      = d.cols := by
    rw [Df.mapCol_cols, Df.mapCol_cols]
  unfold dropnaSubset
  rw [dropna_guard_eq _ d hcols3, if_pos (by rw [hTd, hMd]; rfl)]
  rw [Except.ok.injEq]
  refine Df.eq_of_parts d _ _ hcols3 ?_
  rw [hrows2, hcols3, hcols]
  apply List.filter_eq_self.mpr
  intro r hr
  exact (hrowfix r hr).2.2

/-- The C3 counterexample input: an adapted frame whose single row has the
amount text `0.00001`.  It normalizes successfully — but its float
re-renders as `1e-05`, whose sanitized form `1-05` fails `to_numeric`, so a
second normalization drops the row. -/
def c3SciDf : Df :=
  { cols := ["交易时间", "金额"]
    rows := [[vstr "2024-01-02 03:04:05", vstr "0.00001"]] }

/-- The normalized form of `c3SciDf`: the amount is the exact decimal
`0.00001`, which Python renders scientifically. -/
def c3SciNorm : Df :=
  { cols := ["交易时间", "金额"]
    rows := [[vdate 20240102030405, vnum false [] [0, 0, 0, 0, 1]]] }

/-- C3 counterexample: normalization is not idempotent as claimed — the
`0.00001` row survives the first normalization, its amount re-renders as
`1e-05`, and the second normalization drops it, leaving an empty record
set instead of an identical one. -/
theorem c3_idempotence_counterexample :
    normalizeRecords c3SciDf = .ok c3SciNorm ∧
    astypeStr (vnum false [] [0, 0, 0, 0, 1]) = "1e-05" ∧
    normalizeRecords c3SciNorm = .ok (Df.mk ["交易时间", "金额"] []) ∧
    ¬ normalizeRecords c3SciNorm = .ok c3SciNorm := by
  refine ⟨by rfl, by rfl, by rfl, ?_⟩
  intro h
  have hr : normalizeRecords c3SciNorm = .ok (Df.mk ["交易时间", "金额"] []) := by rfl
  rw [hr, Except.ok.injEq] at h
  exact absurd (congrArg Df.rows h) (by decide)

/-- A small already-adapted frame for the C3 witness: one parseable row and
one row whose timestamp fails coercion. -/
def c3Df : Df :=
  { cols := ["交易时间", "金额"]
    rows := [[vstr "2024-01-02 03:04:05", vstr "¥12.30"],
             [vstr "时间待定", vstr "9.00"]] }

/-- The normalized form of `c3Df`: the unparseable row is dropped, the
survivor carries a parsed datetime and an exact decimal. -/
def c3Norm : Df :=
  { cols := ["交易时间", "金额"]
    rows := [[vdate 20240102030405, vnum false [1, 2] [3]]] }

/-- C3 witness: a concrete normalization run with plainly rendered
amounts, and idempotence at that output via
`c3_normalizer_idempotent_plain`. -/
theorem c3_normalizer_idempotent_plain_witness :
    normalizeRecords c3Df = .ok c3Norm ∧ plainAmounts c3Norm = true ∧
    normalizeRecords c3Norm = .ok c3Norm :=
  ⟨by rfl, by decide, c3_normalizer_idempotent_plain c3Df c3Norm (by rfl) (by decide)⟩

/-! ## C10: the WeChat neutral filter strips before comparing -/

/-- The C10 demonstration file: two data rows, one whose direction label is
`/` with surrounding spaces (only whitespace away from the sentinel) and one
whose label merely contains `/` among other characters. -/
def c10File : TabFile :=
  List.replicate 16 junkRow ++ [wechatHeader] ++
  [wrow "2024-05-01 10:00:00" "转账" "商户戊" "商品E" " / " "¥8.00" "零钱",
   wrow "2024-05-02 11:00:00" "商户消费" "商户戊" "商品F" "a/b" "¥6.00" "零钱"]

/-- C10: the WeChat adapter's neutral filter compares the direction label
after stripping leading and trailing whitespace of its string form — a row
is dropped exactly when the stripped label is the single symbol `/`; hence
a label such as `' / '` is filtered exactly as `'/'` is, while a label that
merely contains `/` among other characters survives (demonstrated on
`c10File`, where only the `a/b` row reaches the output). -/
theorem c10_wechat_strip_filter :
    (∀ (df : Df) (i : Nat) (r : List Value),
        df.cols.findIdx? (· == "收/支") = some i →
        (r ∈ (df.filterOutCol "收/支" wechatNeutral).rows ↔
          r ∈ df.rows ∧ ¬ pyStrip (astypeStr (getCell r i)) = "/")) ∧
    wechatNeutral (vstr " / ") = true ∧
    wechatNeutral (vstr "/") = true ∧
    wechatNeutral (vstr "a/b") = false ∧
    (process_wechat_file c10File).map (fun d => d.rows.length) = some 1 ∧
    (process_wechat_file c10File).map (fun d => d.rows.map (fun r => getCell r 4)) =
      some [vstr "a/b"] := by
  refine ⟨?_, by decide, by decide, by decide, by decide, by decide⟩
  intro df i r h
  unfold Df.filterOutCol
  rw [h]
  simp only [List.mem_filter, Bool.not_eq_true']
  constructor
  · rintro ⟨h1, h2⟩
    refine ⟨h1, ?_⟩
    unfold wechatNeutral at h2
    rwa [beq_eq_false_iff_ne, ne_eq] at h2
  · rintro ⟨h1, h2⟩
    refine ⟨h1, ?_⟩
    unfold wechatNeutral
    rwa [beq_eq_false_iff_ne, ne_eq]

/-- C10 witness: the filter characterization instantiated on a concrete
two-row frame. -/
theorem c10_wechat_strip_filter_witness :
    [vstr "a/b"] ∈ ((Df.mk ["收/支"] [[vstr " / "], [vstr "a/b"]]).filterOutCol
        "收/支" wechatNeutral).rows ↔
      [vstr "a/b"] ∈ (Df.mk ["收/支"] [[vstr " / "], [vstr "a/b"]]).rows ∧
        ¬ pyStrip (astypeStr (getCell [vstr "a/b"] 0)) = "/" :=
  c10_wechat_strip_filter.1 (Df.mk ["收/支"] [[vstr " / "], [vstr "a/b"]]) 0
    [vstr "a/b"] (by decide)

/-! ## C7: a failing Alipay file aborts the whole run (code bug) -/

/-- An Alipay export whose located header has no `金额` column: the header
keywords are all present at row 0, so the locator succeeds, but the
normalization block's `dropna(subset=['交易时间', '金额'])` then raises
`KeyError` — outside the adapter's `try/except`. -/
def c7BadAlipay : TabFile :=
  [[vstr "交易时间", vstr "交易分类", vstr "商品说明"],
   [vstr "2024-04-01 09:00:00", vstr "还款", vstr "信用卡还款"]]

/-- A perfectly fine one-row WeChat export. -/
def c7GoodWechat : TabFile :=
  List.replicate 16 junkRow ++ [wechatHeader] ++
  [wrow "2024-06-01 12:00:00" "商户消费" "商户己" "商品G" "支出" "¥3.50" "零钱"]

/-- C7 (refuting the claim on the code as written): the WeChat file adapts
to one good record, yet the merger run containing the malformed Alipay file
aborts with the uncaught `KeyError` instead of skipping it, and the good
file's records are lost with it. -/
theorem c7_failing_file_aborts_run :
    (process_wechat_file c7GoodWechat).map (fun d => d.rows.length) = some 1 ∧
    process_alipay_file c7BadAlipay = .error "KeyError" ∧
    find_and_process_all_files [c7GoodWechat] [c7BadAlipay] [] = .error "KeyError" := by
  exact ⟨by decide, by rfl, by rfl⟩

/-! ## C8: the no-data signal and the sample-data fallback -/

/-- An Alipay export whose only data row is a `不计收支` (neutral) record:
it adapts successfully, but to an empty record set. -/
def c8EmptyAlipay : TabFile :=
  [[vstr "交易时间", vstr "交易分类", vstr "商品说明", vstr "收/支", vstr "金额"],
   [vstr "2024-04-02 09:00:00", vstr "转账", vstr "理财转入", vstr "不计收支", vstr "100.00"]]

/-- What `c8EmptyAlipay` adapts to: a well-formed frame with zero rows. -/
def c8EmptyDf : Df :=
  { cols := ["交易时间", "交易分类", "商品说明", "收/支", "金额", "数据源"]
    rows := [] }

/-- All-income random draws for `create_sample_data`. -/
def allIncomeDraws : Nat → SampleDraw :=
  fun _ => ⟨0, true, 0, 0, 0⟩

set_option maxRecDepth 8000 in
/-- C8 counterexample: "data found but empty" produces the very same `None`
signal as "no files found" — the merger result on a directory holding one
successfully adapted but empty Alipay file is identical to the empty
directory's; and the sample-data fallback is not guaranteed to mix both
directions: under all-income draws its 200 records contain no expense. -/
theorem c8_no_distinct_empty_signal :
    process_alipay_file c8EmptyAlipay = .ok (some c8EmptyDf) ∧
    c8EmptyDf.rows.isEmpty = true ∧
    find_and_process_all_files [] [c8EmptyAlipay] [] = .ok none ∧
    find_and_process_all_files [] [] [] = .ok none ∧
    (create_sample_data allIncomeDraws).rows.length = 200 ∧
    ((create_sample_data allIncomeDraws).rows.filter
      (fun r => getCell r 3 == vstr "支出")).length = 0 := by
  exact ⟨by rfl, by rfl, by rfl, by rfl, by decide, by decide⟩

/-- The WeChat loop keeps nothing when every file either fails to adapt or
adapts to an empty frame. -/
theorem wechatLoop_no_kept (wf : List TabFile) (acc : List Df)
    (hw : ∀ f ∈ wf, process_wechat_file f = none ∨
      ∃ d0, process_wechat_file f = some d0 ∧ d0.rows = []) :
    wechatLoop wf acc = acc := by
  induction wf generalizing acc with
  | nil => rfl
  | cons f t ih =>
    rw [wechatLoop]
    have hrest : ∀ g ∈ t, process_wechat_file g = none ∨
        ∃ d0, process_wechat_file g = some d0 ∧ d0.rows = [] :=
      fun g hg => hw g (List.mem_cons_of_mem f hg)
    rcases hw f (List.mem_cons_self f t) with hf | ⟨d0, hf, hd0⟩
    · rw [hf]
      exact ih acc hrest
    · rw [hf]
      rw [show appendKept acc (some d0) = acc from by
        simp [appendKept, hd0]]
      exact ih acc hrest

/-- The Alipay loop keeps nothing when every file either is skipped or
adapts to an empty frame. -/
theorem alipayLoop_no_kept (fs : List TabFile) (acc : List Df)
    (ha : ∀ f ∈ fs, process_alipay_file f = .ok none ∨
      ∃ d0, process_alipay_file f = .ok (some d0) ∧ d0.rows = []) :
    alipayLoop fs acc = .ok acc := by
  induction fs generalizing acc with
  | nil => rfl
  | cons f t ih =>
    rw [alipayLoop]
    have hrest : ∀ g ∈ t, process_alipay_file g = .ok none ∨
        ∃ d0, process_alipay_file g = .ok (some d0) ∧ d0.rows = [] :=
      fun g hg => ha g (List.mem_cons_of_mem f hg)
    rcases ha f (List.mem_cons_self f t) with hf | ⟨d0, hf, hd0⟩
    · rw [hf]
      exact ih acc hrest
    · rw [hf]
      dsimp only
      rw [show appendKept acc (some d0) = acc from by
        simp [appendKept, hd0]]
      exact ih acc hrest

/-- C8 (amended): when no source file is found, or every found file either
fails adaptation with a reported (caught) error or adapts successfully to
an empty record set, the merger returns the one no-data signal `None`; on
that signal the caller substitutes the synthetic sample dataset of exactly
200 records, each one income or expense according to its random draw. -/
theorem c8_amended_no_data_fallback (wf ac ax : List TabFile)
    (draws : Nat → SampleDraw)
    (hw : ∀ f ∈ wf, process_wechat_file f = none ∨
      ∃ d0, process_wechat_file f = some d0 ∧ d0.rows = [])
    (ha : ∀ f ∈ ac ++ ax, process_alipay_file f = .ok none ∨
      ∃ d0, process_alipay_file f = .ok (some d0) ∧ d0.rows = []) :
    find_and_process_all_files wf ac ax = .ok none ∧
    mainDataset wf ac ax draws = .ok (create_sample_data draws) ∧
    (create_sample_data draws).rows.length = 200 ∧
    (∀ i, i < 200 → getCell ((create_sample_data draws).rows.getD i []) 3 =
      vstr (if (draws i).isIncome then "收入" else "支出")) := by
  have hmerge : find_and_process_all_files wf ac ax = .ok none := by
    unfold find_and_process_all_files
    rw [wechatLoop_no_kept wf [] hw]
    dsimp only
    rw [alipayLoop_no_kept _ [] ha]
    rfl
  refine ⟨hmerge, ?_, ?_, ?_⟩
  · unfold mainDataset
    rw [hmerge]
  · simp [create_sample_data]
  · intro i hi
    have hrow : (create_sample_data draws).rows.getD i [] = mkSampleRow (draws i) := by
      unfold create_sample_data
      rw [List.getD_eq_getElem?_getD, List.getElem?_map, List.getElem?_range hi]
      rfl
    rw [hrow]
    cases h : (draws i).isIncome <;> simp [mkSampleRow, h, getCell]

/-- An Alipay file in which the header keywords never occur: the locator
misses and the adapter skips the file with `ok none`. -/
def c8NoHeaderAlipay : TabFile := [[vstr "无表头"]]

/-- Alternating random draws for the C8 witness. -/
def c8Draws : Nat → SampleDraw := fun i => ⟨i, i % 2 == 0, i, i, i⟩

/-- C8 witness: the amended no-data/fallback property instantiated on a
directory holding one unreadable WeChat file (too short for its fixed
offset), one Alipay file whose header is never located, and one Alipay
file that adapts successfully to an empty record set. -/
theorem c8_amended_no_data_fallback_witness :
    find_and_process_all_files [[]] [c8NoHeaderAlipay] [c8EmptyAlipay] = .ok none ∧
    mainDataset [[]] [c8NoHeaderAlipay] [c8EmptyAlipay] c8Draws =
      .ok (create_sample_data c8Draws) ∧
    (create_sample_data c8Draws).rows.length = 200 ∧
    (∀ i, i < 200 → getCell ((create_sample_data c8Draws).rows.getD i []) 3 =
      vstr (if (c8Draws i).isIncome then "收入" else "支出")) :=
  c8_amended_no_data_fallback [[]] [c8NoHeaderAlipay] [c8EmptyAlipay] c8Draws
    (by
      intro f hf
      rw [List.mem_singleton] at hf
      subst hf
      exact Or.inl rfl)
    (by
      intro f hf
      rw [List.singleton_append, List.mem_cons, List.mem_singleton] at hf
      rcases hf with rfl | rfl
      · exact Or.inl rfl
      · exact Or.inr ⟨c8EmptyDf, rfl, rfl⟩)

/-! ## C9: the merger's concatenation order -/

/-- The WeChat frames the merger keeps, in file order: successfully adapted
and non-empty. -/
def keptWechat (fs : List TabFile) : List Df :=
  fs.filterMap (fun f =>
    match process_wechat_file f with
    | some d => if d.rows.isEmpty then none else some d
    | none => none)

/-- The Alipay frames the merger keeps, in file order: successfully adapted
and non-empty. -/
def keptAlipay (fs : List TabFile) : List Df :=
  fs.filterMap (fun f =>
    match process_alipay_file f with
    | .ok (some d) => if d.rows.isEmpty then none else some d
    | _ => none)

/-- The WeChat accumulation loop appends exactly the kept frames, in
order. -/
theorem wechatLoop_eq (fs : List TabFile) (acc : List Df) :
    wechatLoop fs acc = acc ++ keptWechat fs := by
  induction fs generalizing acc with
  | nil => simp [wechatLoop, keptWechat]
  | cons f t ih =>
    rw [wechatLoop, ih]
    unfold keptWechat
    rw [List.filterMap_cons]
    cases h : process_wechat_file f with
    | none => simp [appendKept, h]
    | some d =>
      by_cases he : d.rows.isEmpty
      · simp [appendKept, h, he]
      · simp [appendKept, h, he, keptWechat]

/-- A non-aborting Alipay accumulation loop appends exactly the kept
frames, in order. -/
theorem alipayLoop_eq (fs : List TabFile) (acc out : List Df)
    (h : alipayLoop fs acc = .ok out) : out = acc ++ keptAlipay fs := by
  induction fs generalizing acc with
  | nil =>
    rw [alipayLoop, Except.ok.injEq] at h
    simp [← h, keptAlipay]
  | cons f t ih =>
    rw [alipayLoop] at h
    cases hp : process_alipay_file f with
    | error e => rw [hp] at h; exact absurd h (by simp)
    | ok res =>
      rw [hp] at h
      have := ih _ h
      unfold keptAlipay
      rw [List.filterMap_cons, hp]
      cases res with
      | none => simpa [appendKept, keptAlipay] using this
      | some d =>
        by_cases he : d.rows.isEmpty
        · simpa [appendKept, he, keptAlipay] using this
        · simpa [appendKept, he, keptAlipay] using this

/-- Structure of a successful merger run: the merged dataset is the sort
step applied to the kept frames concatenated in loop order (WeChat first,
then Alipay `.csv` before `.xlsx`). -/
theorem merger_ok_eq (wf ac ax : List TabFile) (d : Df)
    (h : find_and_process_all_files wf ac ax = .ok (some d)) :
    keptAlipay (ac ++ ax) = keptAlipay ac ++ keptAlipay ax ∧
    (keptWechat wf ++ (keptAlipay ac ++ keptAlipay ax)) ≠ [] ∧
    d = (if (concatDfs (keptWechat wf ++ (keptAlipay ac ++ keptAlipay ax))).hasCol
            "交易时间"
         then sortByTimeDesc (concatDfs (keptWechat wf ++ (keptAlipay ac ++ keptAlipay ax)))
         else concatDfs (keptWechat wf ++ (keptAlipay ac ++ keptAlipay ax))) := by
  have hsplit : keptAlipay (ac ++ ax) = keptAlipay ac ++ keptAlipay ax := by
    unfold keptAlipay
    rw [List.filterMap_append]
  unfold find_and_process_all_files at h
  rw [wechatLoop_eq wf []] at h
  dsimp only at h
  rw [List.nil_append] at h
  cases hl : alipayLoop (ac ++ ax) (keptWechat wf) with
  | error e => rw [hl] at h; exact absurd h (by simp)
  | ok all =>
    rw [hl] at h
    dsimp only at h
    have hall : all = keptWechat wf ++ keptAlipay (ac ++ ax) := by
      simpa using alipayLoop_eq _ _ _ hl
    by_cases he : all.isEmpty
    · rw [if_pos he] at h
      exact absurd h (by simp)
    · rw [if_neg he] at h
      rw [Except.ok.injEq, Option.some.injEq] at h
      rw [hall, hsplit] at he h
      refine ⟨hsplit, ?_, h.symm⟩
      intro hcon
      rw [hcon] at he
      exact he rfl

/-- A one-row Alipay export for the C9 witness. -/
def c9Alipay : TabFile :=
  [[vstr "交易时间", vstr "交易分类", vstr "商品说明", vstr "收/支", vstr "金额"],
   [vstr "2024-07-01 08:00:00", vstr "餐饮", vstr "早餐", vstr "支出", vstr "12.00"]]

/-- The merged dataset of the C9 witness run: the Alipay record (July,
aligned to the WeChat column set with nulls for its missing columns) sorts
above the WeChat record (June). -/
def c9Merged : Df :=
  { cols := ["交易时间", "交易分类", "交易对方", "商品说明", "收/支", "金额",
             "收/付款方式", "数据源"]
    rows := [[vdate 20240701080000, vstr "餐饮", vnull, vstr "早餐", vstr "支出",
              vnum false [1, 2] [], vnull, vstr "支付宝"],
             [vdate 20240601120000, vstr "商户消费", vstr "商户己", vstr "商品G",
              vstr "支出", vnum false [3] [5], vstr "零钱", vstr "微信支付"]] }


/-! ## C4 and C5: adapter output invariants -/

/-- `contains` and membership agree for string lists. -/
theorem contains_eq_mem_str (l : List String) (c : String) :
    l.contains c = true ↔ c ∈ l := by
  rw [List.contains_iff_exists_mem_beq]
  constructor
  · rintro ⟨a, ha, hb⟩
    rw [beq_iff_eq] at hb
    rwa [hb]
  · intro h
    exact ⟨c, h, by rw [beq_iff_eq]⟩

/-- The timestamp coercion yields null or a parsed datetime. -/
theorem pdToDatetime_shape (v : Value) :
    pdToDatetime v = vnull ∨ ∃ t, pdToDatetime v = vdate t := by
  cases v with
  | vstr s =>
    cases h : parseDateTime s with
    | none => exact Or.inl (by simp [pdToDatetime, h])
    | some t => exact Or.inr ⟨t, by simp [pdToDatetime, h]⟩
  | vdate t => exact Or.inr ⟨t, rfl⟩
  | vnum n ip fp => exact Or.inl rfl
  | vnull => exact Or.inl rfl

/-- A row passing the null filter has non-null cells at both resolved
columns. -/
theorem dropnaPass_nonnull (cols : List String) (r : List Value) (it im : Nat)
    (hit : cols.findIdx? (· == "交易时间") = some it)
    (him : cols.findIdx? (· == "金额") = some im)
    (h : dropnaPass cols ["交易时间", "金额"] r = true) :
    ¬ getCell r it = vnull ∧ ¬ getCell r im = vnull := by
  unfold dropnaPass at h
  rw [List.all_cons, List.all_cons, List.all_nil, hit, him] at h
  simp only [Bool.and_true, Bool.and_eq_true, Bool.not_eq_eq_eq_not, Bool.not_true,
    beq_eq_false_iff_ne, ne_eq] at h
  exact h

/-- Every row of a successfully normalized frame carries a parsed datetime
and a parsed decimal at the two required columns. -/
theorem normalizeRecords_ok_valid (df d : Df) (h : normalizeRecords df = .ok d) :
    ∃ it im, d.cols.findIdx? (· == "交易时间") = some it ∧
      d.cols.findIdx? (· == "金额") = some im ∧ it ≠ im ∧
      ∀ r ∈ d.rows, (∃ t, getCell r it = vdate t) ∧
        (∃ n ip fp, getCell r im = vnum n ip fp) := by
  obtain ⟨hcols, hT, hM, it, im, hit, him, hne, hrows⟩ := normalizeRecords_ok_spec df d h
  refine ⟨it, im, by rw [hcols]; exact hit, by rw [hcols]; exact him, hne, ?_⟩
  intro r hr
  rw [hrows] at hr
  obtain ⟨hr1, hpass⟩ := List.mem_filter.mp hr
  obtain ⟨r0, hr0, heq⟩ := List.mem_map.mp hr1
  simp only at heq
  obtain ⟨hnt, hnm⟩ := dropnaPass_nonnull df.cols r it im hit him hpass
  constructor
  · have e1 : getCell r it = getCell (r0.set it (pdToDatetime (getCell r0 it))) it := by
      rw [← heq]
      exact getCell_set_ne _ im it _ (Ne.symm hne)
    rcases getCell_set_eval r0 it (pdToDatetime (getCell r0 it)) with h2 | ⟨h2, h3⟩
    · rcases pdToDatetime_shape (getCell r0 it) with hs | ⟨t, hs⟩
      · rw [e1, h2, hs] at hnt
        exact absurd rfl hnt
      · exact ⟨t, by rw [e1, h2, hs]⟩
    · rw [e1, h2, h3] at hnt
      exact absurd rfl hnt
  · rcases getCell_set_eval (r0.set it (pdToDatetime (getCell r0 it))) im
        (sanitizeAmount (getCell (r0.set it (pdToDatetime (getCell r0 it))) im)) with
      h2 | ⟨h2, h3⟩
    · rw [heq] at h2
      rcases sanitizeAmount_shape (getCell (r0.set it (pdToDatetime (getCell r0 it))) im)
          with hs | ⟨n, ip, fp, hs, -, -⟩
      · rw [h2, hs] at hnm
        exact absurd rfl hnm
      · exact ⟨n, ip, fp, by rw [h2, hs]⟩
    · rw [← heq, h2, h3] at hnm
      exact absurd rfl hnm

/-- Normalization does not touch cells of columns other than `交易时间` and
`金额`: every output row reads there as some input row did. -/
theorem normalizeRecords_cell_preserved (df d : Df) (h : normalizeRecords df = .ok d)
    (j : Nat) (hname1 : ¬ df.cols.getD j "" = "交易时间")
    (hname2 : ¬ df.cols.getD j "" = "金额") :
    ∀ r ∈ d.rows, ∃ r0 ∈ df.rows, getCell r j = getCell r0 j := by
  obtain ⟨hcols, hT, hM, it, im, hit, him, hne, hrows⟩ := normalizeRecords_ok_spec df d h
  have hjit : it ≠ j := by
    intro hcon
    exact hname1 (by rw [← hcon]; exact (findIdx?_beq_getD _ _ _ hit).2)
  have hjim : im ≠ j := by
    intro hcon
    exact hname2 (by rw [← hcon]; exact (findIdx?_beq_getD _ _ _ him).2)
  intro r hr
  rw [hrows] at hr
  obtain ⟨hr1, -⟩ := List.mem_filter.mp hr
  obtain ⟨r0, hr0, heq⟩ := List.mem_map.mp hr1
  simp only at heq
  refine ⟨r0, hr0, ?_⟩
  rw [← heq, getCell_set_ne _ im j _ hjim, getCell_set_ne _ it j _ hjit]

/-- Rows read with a header are exactly as wide as the column list. -/
theorem rect_readWithHeader (hdr : List Value) (data : List (List Value)) :
    ∀ r ∈ (readWithHeader hdr data).rows,
      r.length = (readWithHeader hdr data).cols.length := by
  intro r hr
  unfold readWithHeader at hr ⊢
  obtain ⟨r0, -, rfl⟩ := List.mem_map.mp hr
  simp only [conformRow, List.length_append, List.length_take, List.length_replicate,
    List.length_map]
  omega

/-- Renaming columns changes neither the rows nor the width. -/
theorem rect_renameCols (df : Df) (m : List (String × String))
    (hrect : ∀ r ∈ df.rows, r.length = df.cols.length) :
    ∀ r ∈ (df.renameCols m).rows, r.length = (df.renameCols m).cols.length := by
  intro r hr
  unfold Df.renameCols at hr ⊢
  rw [List.length_map]
  exact hrect r hr

/-- Setting a constant column: the column exists afterwards (at its first
position), every row reads the constant there, and rectangularity is
preserved. -/
theorem setConstCol_spec (df : Df) (c : String) (v : Value)
    (hrect : ∀ r ∈ df.rows, r.length = df.cols.length) :
    ∃ i, (df.setConstCol c v).cols.findIdx? (· == c) = some i ∧
      (∀ r ∈ (df.setConstCol c v).rows, getCell r i = v) ∧
      (∀ r ∈ (df.setConstCol c v).rows, r.length = (df.setConstCol c v).cols.length) := by
  unfold Df.setConstCol
  split
  · next i h =>
    refine ⟨i, h, ?_, ?_⟩
    · intro r hr
      obtain ⟨r0, hr0, rfl⟩ := List.mem_map.mp hr
      have hlen : i < r0.length := by
        rw [hrect r0 hr0]
        exact (findIdx?_beq_getD _ _ _ h).1
      simp [getCell, List.getD_eq_getElem?_getD, List.getElem?_set_self hlen]
    · intro r hr
      obtain ⟨r0, hr0, rfl⟩ := List.mem_map.mp hr
      rw [List.length_set]
      exact hrect r0 hr0
  · next h =>
    refine ⟨df.cols.length, ?_, ?_, ?_⟩
    · rw [List.findIdx?_append, h, Option.none_or]
      simp
    · intro r hr
      obtain ⟨r0, hr0, rfl⟩ := List.mem_map.mp hr
      rw [getCell, ← hrect r0 hr0, List.getD_append_right _ _ _ _ (le_refl _)]
      simp
    · intro r hr
      obtain ⟨r0, hr0, rfl⟩ := List.mem_map.mp hr
      simp only [List.length_append, List.length_cons, List.length_nil]
      rw [hrect r0 hr0]

/-- `filterOutCol` keeps the column names. -/
theorem filterOutCol_cols (df : Df) (c : String) (p : Value → Bool) :
    (df.filterOutCol c p).cols = df.cols := by
  unfold Df.filterOutCol
  split <;> rfl

/-- Rows surviving `filterOutCol` are rows of the input. -/
theorem filterOutCol_rows_sub (df : Df) (c : String) (p : Value → Bool) :
    ∀ r ∈ (df.filterOutCol c p).rows, r ∈ df.rows := by
  intro r hr
  unfold Df.filterOutCol at hr
  revert hr
  split
  · intro hr
    exact (List.mem_filter.mp hr).1
  · exact fun hr => hr

/-- Rows surviving `filterOutCol` on a present column fail the mask
there. -/
theorem filterOutCol_rows_mask (df : Df) (c : String) (p : Value → Bool) (i : Nat)
    (h : df.cols.findIdx? (· == c) = some i) :
    ∀ r ∈ (df.filterOutCol c p).rows, p (getCell r i) = false := by
  intro r hr
  unfold Df.filterOutCol at hr
  rw [h] at hr
  have := (List.mem_filter.mp hr).2
  rwa [Bool.not_eq_true'] at this

/-- The per-source output invariant both adapters establish: timestamps
parsed, amounts numeric, every row tagged with the source, and no row
matching the source's neutral mask. -/
def dfInv (tag : String) (neutral : Value → Bool) (d : Df) : Prop :=
  (∃ it, d.cols.findIdx? (· == "交易时间") = some it ∧
    ∀ r ∈ d.rows, ∃ t, getCell r it = vdate t) ∧
  (∃ im, d.cols.findIdx? (· == "金额") = some im ∧
    ∀ r ∈ d.rows, ∃ n ip fp, getCell r im = vnum n ip fp) ∧
  (∃ iS, d.cols.findIdx? (· == "数据源") = some iS ∧
    ∀ r ∈ d.rows, getCell r iS = vstr tag) ∧
  (∀ il, d.cols.findIdx? (· == "收/支") = some il →
    ∀ r ∈ d.rows, neutral (getCell r il) = false)

/-- The common adapter tail — optional neutral filter, then the shared
normalization — establishes the per-source output invariant over any
source-tagged rectangular frame. -/
theorem adapted_tail_inv (df2 : Df) (tag : String) (neutral : Value → Bool) (d : Df)
    (htag : ∃ i, df2.cols.findIdx? (· == "数据源") = some i ∧
        ∀ r ∈ df2.rows, getCell r i = vstr tag)
    (h : normalizeRecords (if df2.hasCol "收/支" then df2.filterOutCol "收/支" neutral
        else df2) = .ok d) : dfInv tag neutral d := by
  obtain ⟨iS, hiS, htagv⟩ := htag
  set df3 := if df2.hasCol "收/支" then df2.filterOutCol "收/支" neutral else df2 with hdf3
  have hc3 : df3.cols = df2.cols := by
    rw [hdf3]
    split
    · rw [filterOutCol_cols]
    · rfl
  have hsub : ∀ r ∈ df3.rows, r ∈ df2.rows := by
    rw [hdf3]
    split
    · exact filterOutCol_rows_sub df2 _ _
    · exact fun r hr => hr
  have hcols : d.cols = df2.cols := by
    rw [(normalizeRecords_ok_spec df3 d h).1, hc3]
  obtain ⟨it, im, hit, him, hne, hvalid⟩ := normalizeRecords_ok_valid df3 d h
  refine ⟨⟨it, hit, fun r hr => (hvalid r hr).1⟩, ⟨im, him, fun r hr => (hvalid r hr).2⟩,
    ⟨iS, by rw [hcols]; exact hiS, ?_⟩, ?_⟩
  · intro r hr
    have hname : df3.cols.getD iS "" = "数据源" := by
      rw [hc3]
      exact (findIdx?_beq_getD _ _ _ hiS).2
    obtain ⟨r0, hr0, hcell⟩ := normalizeRecords_cell_preserved df3 d h iS
      (by rw [hname]; decide) (by rw [hname]; decide) r hr
    rw [hcell]
    exact htagv r0 (hsub r0 hr0)
  · intro il hil r hr
    have hil2 : df2.cols.findIdx? (· == "收/支") = some il := by
      rw [← hc3, ← (normalizeRecords_ok_spec df3 d h).1]
      exact hil
    have hname : df3.cols.getD il "" = "收/支" := by
      rw [← (normalizeRecords_ok_spec df3 d h).1]
      exact (findIdx?_beq_getD _ _ _ hil).2
    have hhas : df2.hasCol "收/支" = true := by
      unfold Df.hasCol
      rw [contains_eq_mem_str]
      have h1 := (findIdx?_beq_getD _ _ _ hil2).2
      have h2 := (findIdx?_beq_getD _ _ _ hil2).1
      rw [← h1, List.getD_eq_getElem?_getD, List.getElem?_eq_getElem h2]
      exact List.getElem_mem h2
    have hdf3' : df3 = df2.filterOutCol "收/支" neutral := by
      rw [hdf3, if_pos hhas]
    obtain ⟨r0, hr0, hcell⟩ := normalizeRecords_cell_preserved df3 d h il
      (by rw [hname]; decide) (by rw [hname]; decide) r hr
    rw [hcell]
    apply filterOutCol_rows_mask df2 "收/支" neutral il hil2 r0
    rw [← hdf3']
    exact hr0

/-- C9: before the timestamp sort, the merger concatenates the kept record
sets in a fixed source order — all WeChat frames first, in glob order, then
the Alipay frames with the `.csv` glob matches before the `.xlsx` ones —
and the merged dataset is exactly the sort step applied to that
concatenation (so any tie handling of the sort operates on it). -/
theorem c9_concat_order (wf ac ax : List TabFile) (d : Df)
    (h : find_and_process_all_files wf ac ax = .ok (some d)) :
    keptAlipay (ac ++ ax) = keptAlipay ac ++ keptAlipay ax ∧
    (keptWechat wf ++ (keptAlipay ac ++ keptAlipay ax)) ≠ [] ∧
    d = (if (concatDfs (keptWechat wf ++ (keptAlipay ac ++ keptAlipay ax))).hasCol
            "交易时间"
         then sortByTimeDesc (concatDfs (keptWechat wf ++ (keptAlipay ac ++ keptAlipay ax)))
         else concatDfs (keptWechat wf ++ (keptAlipay ac ++ keptAlipay ax))) :=
  merger_ok_eq wf ac ax d h

/-- C9 witness: the concatenation-order equation instantiated on a concrete
run with one WeChat and one Alipay file. -/
theorem c9_concat_order_witness :
    keptAlipay ([c9Alipay] ++ []) = keptAlipay [c9Alipay] ++ keptAlipay [] ∧
    (keptWechat [c7GoodWechat] ++ (keptAlipay [c9Alipay] ++ keptAlipay [])) ≠ [] ∧
    c9Merged = (if (concatDfs (keptWechat [c7GoodWechat] ++
        (keptAlipay [c9Alipay] ++ keptAlipay []))).hasCol "交易时间"
      then sortByTimeDesc (concatDfs (keptWechat [c7GoodWechat] ++
        (keptAlipay [c9Alipay] ++ keptAlipay [])))
      else concatDfs (keptWechat [c7GoodWechat] ++
        (keptAlipay [c9Alipay] ++ keptAlipay []))) :=
  c9_concat_order [c7GoodWechat] [c9Alipay] [] c9Merged (by rfl)

/-- The WeChat adapter's output satisfies the per-source invariant with the
WeChat tag and the exact-match (after strip) neutral mask. -/
theorem process_wechat_inv (f : TabFile) (d : Df) (h : process_wechat_file f = some d) :
    dfInv "微信支付" wechatNeutral d := by
  unfold process_wechat_file at h
  cases hd : f.drop 16 with
  | nil =>
    rw [hd] at h
    exact absurd h (by simp)
  | cons hdr data =>
    rw [hd] at h
    dsimp only at h
    cases hn : normalizeRecords
        (if ((((readWithHeader hdr data).renameCols wechatColumns).setConstCol
            "数据源" (vstr "微信支付")).hasCol "收/支") = true
         then (((readWithHeader hdr data).renameCols wechatColumns).setConstCol
            "数据源" (vstr "微信支付")).filterOutCol "收/支" wechatNeutral
         else ((readWithHeader hdr data).renameCols wechatColumns).setConstCol
            "数据源" (vstr "微信支付")) with
    | error e =>
      rw [hn] at h
      exact absurd h (by simp)
    | ok d' =>
      rw [hn] at h
      rw [Option.some.injEq] at h
      subst h
      apply adapted_tail_inv _ _ _ _ ?_ hn
      obtain ⟨i, h1, h2, -⟩ := setConstCol_spec ((readWithHeader hdr data).renameCols
        wechatColumns) "数据源" (vstr "微信支付")
        (rect_renameCols _ _ (rect_readWithHeader hdr data))
      exact ⟨i, h1, h2⟩

/-- The Alipay adapter's output satisfies the per-source invariant with the
Alipay tag and the substring-containment neutral mask. -/
theorem process_alipay_inv (f : TabFile) (d : Df)
    (h : process_alipay_file f = .ok (some d)) :
    dfInv "支付宝" alipayNeutral d := by
  unfold process_alipay_file at h
  cases hh : find_header_row f alipayKeywords with
  | none =>
    rw [hh] at h
    exact absurd h (by simp)
  | some hi =>
    rw [hh] at h
    dsimp only at h
    cases hd : f.drop hi with
    | nil =>
      rw [hd] at h
      exact absurd h (by simp)
    | cons hdr data =>
      rw [hd] at h
      dsimp only at h
      cases hn : normalizeRecords
          (if (((readWithHeader hdr data).setConstCol "数据源"
              (vstr "支付宝")).hasCol "收/支") = true
           then ((readWithHeader hdr data).setConstCol "数据源"
              (vstr "支付宝")).filterOutCol "收/支" alipayNeutral
           else (readWithHeader hdr data).setConstCol "数据源" (vstr "支付宝")) with
      | error e =>
        rw [hn] at h
        exact absurd h (by simp [Except.map])
      | ok d' =>
        rw [hn] at h
        simp only [Except.map, Except.ok.injEq, Option.some.injEq] at h
        subst h
        apply adapted_tail_inv _ _ _ _ ?_ hn
        obtain ⟨i, h1, h2, -⟩ := setConstCol_spec (readWithHeader hdr data)
          "数据源" (vstr "支付宝") (rect_readWithHeader hdr data)
        exact ⟨i, h1, h2⟩

/-- Membership in the first-appearance union of column lists. -/
theorem mem_unionCols (a : String) :
    ∀ (l seen : List String),
      a ∈ unionCols seen l ↔ a ∈ l ∧ seen.contains a = false := by
  intro l
  induction l with
  | nil => intro seen; simp [unionCols]
  | cons c t ih =>
    intro seen
    by_cases hc : seen.contains c
    · rw [unionCols, if_pos hc, ih]
      constructor
      · rintro ⟨h1, h2⟩
        exact ⟨List.mem_cons_of_mem c h1, h2⟩
      · rintro ⟨h1, h2⟩
        rcases List.mem_cons.mp h1 with rfl | h1
        · rw [hc] at h2
          exact absurd h2 (by simp)
        · exact ⟨h1, h2⟩
    · rw [unionCols, if_neg hc]
      constructor
      · intro h1
        rcases List.mem_cons.mp h1 with rfl | h1
        · refine ⟨List.mem_cons_self a t, ?_⟩
          rw [← Bool.not_eq_true]
          exact hc
        · obtain ⟨h2, h3⟩ := (ih (c :: seen)).mp h1
          refine ⟨List.mem_cons_of_mem c h2, ?_⟩
          rw [List.contains_cons] at h3
          exact (Bool.or_eq_false_iff.mp h3).2
      · rintro ⟨h1, h2⟩
        rcases List.mem_cons.mp h1 with rfl | h1
        · exact List.mem_cons_self a _
        · by_cases hac : a = c
          · subst hac
            exact List.mem_cons_self a _
          · apply List.mem_cons_of_mem
            apply (ih (c :: seen)).mpr
            refine ⟨h1, ?_⟩
            rw [List.contains_cons, Bool.or_eq_false_iff]
            refine ⟨?_, h2⟩
            rw [beq_eq_false_iff_ne]
            exact hac

/-- A column of a concatenated frame: present in the union exactly when
some member frame has it. -/
theorem mem_concatDfs_cols (L : List Df) (c : String) :
    c ∈ (concatDfs L).cols ↔ ∃ dk ∈ L, c ∈ dk.cols := by
  show c ∈ unionCols [] (L.flatMap fun d => d.cols) ↔ _
  rw [mem_unionCols]
  simp [List.mem_flatMap]

/-- Every row of a concatenated frame is an aligned row of some member
frame. -/
theorem concatDfs_rows_from (L : List Df) (r : List Value)
    (hr : r ∈ (concatDfs L).rows) :
    ∃ dk ∈ L, ∃ r0 ∈ dk.rows, r = alignRow dk.cols r0 (concatDfs L).cols := by
  unfold concatDfs at hr ⊢
  obtain ⟨dk, hdk, hr1⟩ := List.mem_flatMap.mp hr
  obtain ⟨r0, hr0, heq⟩ := List.mem_map.mp hr1
  exact ⟨dk, hdk, r0, hr0, heq.symm⟩

/-- Reading an aligned row at a found target column position looks the cell
up in the source frame by column name. -/
theorem align_getCell (src : List String) (r0 : List Value) (tgt : List String)
    (c : String) (i : Nat) (hi : tgt.findIdx? (· == c) = some i) :
    getCell (alignRow src r0 tgt) i =
      (match src.findIdx? (· == c) with
       | some j => getCell r0 j
       | none => vnull) := by
  obtain ⟨hlen, hname⟩ := findIdx?_beq_getD tgt c i hi
  have hget : tgt.getD i "" = tgt[i] := by
    rw [List.getD_eq_getElem?_getD, List.getElem?_eq_getElem hlen]
    rfl
  unfold alignRow
  rw [getCell, List.getD_eq_getElem?_getD, List.getElem?_map,
    List.getElem?_eq_getElem hlen]
  rw [Option.map_some', Option.getD_some]
  rw [show tgt[i] = c from by rw [← hget]; exact hname]

/-- The sort step permutes rows only. -/
theorem sortByTimeDesc_mem (df : Df) (r : List Value) :
    r ∈ (sortByTimeDesc df).rows ↔ r ∈ df.rows := by
  unfold sortByTimeDesc
  split
  · next i h =>
    dsimp only
    rw [List.mem_reverse, (List.perm_insertionSort _ _).mem_iff, List.mem_reverse]
  · exact Iff.rfl

/-- The sort step keeps the column names. -/
theorem sortByTimeDesc_cols (df : Df) : (sortByTimeDesc df).cols = df.cols := by
  unfold sortByTimeDesc
  split <;> rfl

/-- A kept WeChat frame comes from a successfully adapted file. -/
theorem keptWechat_from (fs : List TabFile) (dk : Df) (h : dk ∈ keptWechat fs) :
    ∃ f, process_wechat_file f = some dk := by
  unfold keptWechat at h
  obtain ⟨f, -, hf⟩ := List.mem_filterMap.mp h
  refine ⟨f, ?_⟩
  cases hp : process_wechat_file f with
  | none =>
    rw [hp] at hf
    exact absurd hf (by simp)
  | some d' =>
    rw [hp] at hf
    dsimp only at hf
    by_cases he : d'.rows.isEmpty
    · rw [if_pos he] at hf
      exact absurd hf (by simp)
    · rw [if_neg he] at hf
      rw [Option.some.injEq] at hf
      rw [hf]

/-- A kept Alipay frame comes from a successfully adapted file. -/
theorem keptAlipay_from (fs : List TabFile) (dk : Df) (h : dk ∈ keptAlipay fs) :
    ∃ f, process_alipay_file f = .ok (some dk) := by
  unfold keptAlipay at h
  obtain ⟨f, -, hf⟩ := List.mem_filterMap.mp h
  refine ⟨f, ?_⟩
  cases hp : process_alipay_file f with
  | error e =>
    rw [hp] at hf
    exact absurd hf (by simp)
  | ok res =>
    cases res with
    | none =>
      rw [hp] at hf
      exact absurd hf (by simp)
    | some d' =>
      rw [hp] at hf
      dsimp only at hf
      by_cases he : d'.rows.isEmpty
      · rw [if_pos he] at hf
        exact absurd hf (by simp)
      · rw [if_neg he] at hf
        rw [Option.some.injEq] at hf
        rw [hf]

/-- Origin of a merged row: it is the alignment of a row of some kept
frame, and that frame satisfies its source's output invariant. -/
theorem merged_row_from (wf ac ax : List TabFile) (d : Df)
    (h : find_and_process_all_files wf ac ax = .ok (some d))
    (r : List Value) (hr : r ∈ d.rows) :
    d.cols = (concatDfs (keptWechat wf ++ (keptAlipay ac ++ keptAlipay ax))).cols ∧
    ∃ dk ∈ (keptWechat wf ++ (keptAlipay ac ++ keptAlipay ax)),
      (dfInv "微信支付" wechatNeutral dk ∨ dfInv "支付宝" alipayNeutral dk) ∧
      ∃ r0 ∈ dk.rows, r = alignRow dk.cols r0
        (concatDfs (keptWechat wf ++ (keptAlipay ac ++ keptAlipay ax))).cols := by
  obtain ⟨-, -, hd⟩ := merger_ok_eq wf ac ax d h
  have hdc : d.cols =
      (concatDfs (keptWechat wf ++ (keptAlipay ac ++ keptAlipay ax))).cols := by
    rw [hd]
    split
    · rw [sortByTimeDesc_cols]
    · rfl
  have hrc : r ∈ (concatDfs (keptWechat wf ++ (keptAlipay ac ++ keptAlipay ax))).rows := by
    rw [hd] at hr
    revert hr
    split
    · intro hr
      exact (sortByTimeDesc_mem _ _).mp hr
    · exact id
  obtain ⟨dk, hdk, r0, hr0, heq⟩ := concatDfs_rows_from _ r hrc
  refine ⟨hdc, dk, hdk, ?_, r0, hr0, heq⟩
  rcases List.mem_append.mp hdk with hk | hk
  · obtain ⟨f, hf⟩ := keptWechat_from wf dk hk
    exact Or.inl (process_wechat_inv f dk hf)
  · rcases List.mem_append.mp hk with hk2 | hk2
    · obtain ⟨f, hf⟩ := keptAlipay_from ac dk hk2
      exact Or.inr (process_alipay_inv f dk hf)
    · obtain ⟨f, hf⟩ := keptAlipay_from ax dk hk2
      exact Or.inr (process_alipay_inv f dk hf)

/-- C4: the merged canonical dataset contains no neutral record — for every
merged row, if its source tag is the WeChat tag then its raw direction
label does not match the WeChat sentinel (`strip == '/'`, exact equality),
and if its source tag is the Alipay tag then the label does not contain the
Alipay sentinel phrase `不计收支`; the adapters removed every such record
before it could enter the output. -/
theorem c4_neutral_filtering (wf ac ax : List TabFile) (d : Df)
    (h : find_and_process_all_files wf ac ax = .ok (some d))
    (r : List Value) (hr : r ∈ d.rows) (iS iL : Nat)
    (hS : d.cols.findIdx? (· == "数据源") = some iS)
    (hL : d.cols.findIdx? (· == "收/支") = some iL) :
    (getCell r iS = vstr "微信支付" → wechatNeutral (getCell r iL) = false) ∧
    (getCell r iS = vstr "支付宝" → alipayNeutral (getCell r iL) = false) := by
  obtain ⟨hdc, dk, hdk, hinv, r0, hr0, heq⟩ := merged_row_from wf ac ax d h r hr
  rw [hdc] at hS hL
  have hvS := align_getCell dk.cols r0 _ "数据源" iS hS
  have hvL := align_getCell dk.cols r0 _ "收/支" iL hL
  rw [← heq] at hvS hvL
  rcases hinv with hw | ha
  · obtain ⟨-, -, ⟨jS, hjS, hjtag⟩, hneu⟩ := hw
    have hSv : getCell r iS = vstr "微信支付" := by
      rw [hvS, hjS]
      exact hjtag r0 hr0
    constructor
    · intro _
      cases hjl : dk.cols.findIdx? (· == "收/支") with
      | none =>
        rw [hjl] at hvL
        dsimp only at hvL
        rw [hvL]
        decide
      | some jl =>
        rw [hjl] at hvL
        rw [hvL]
        exact hneu jl hjl r0 hr0
    · intro hcon
      rw [hSv] at hcon
      exact absurd hcon (by decide)
  · obtain ⟨-, -, ⟨jS, hjS, hjtag⟩, hneu⟩ := ha
    have hSv : getCell r iS = vstr "支付宝" := by
      rw [hvS, hjS]
      exact hjtag r0 hr0
    constructor
    · intro hcon
      rw [hSv] at hcon
      exact absurd hcon (by decide)
    · intro _
      cases hjl : dk.cols.findIdx? (· == "收/支") with
      | none =>
        rw [hjl] at hvL
        dsimp only at hvL
        rw [hvL]
        decide
      | some jl =>
        rw [hjl] at hvL
        rw [hvL]
        exact hneu jl hjl r0 hr0

/-- The merged Alipay row of the C4/C5 witness run. -/
def c4Row : List Value :=
  [vdate 20240701080000, vstr "餐饮", vnull, vstr "早餐", vstr "支出",
   vnum false [1, 2] [], vnull, vstr "支付宝"]

/-- C4 witness: the neutral-freeness of the merged dataset instantiated on
a concrete merger run and one of its rows. -/
theorem c4_neutral_filtering_witness :
    (getCell c4Row 7 = vstr "微信支付" → wechatNeutral (getCell c4Row 4) = false) ∧
    (getCell c4Row 7 = vstr "支付宝" → alipayNeutral (getCell c4Row 4) = false) :=
  c4_neutral_filtering [c7GoodWechat] [c9Alipay] [] c9Merged (by rfl) c4Row
    (by decide) 7 4 (by rfl) (by rfl)

/-- The null-rejection output shape: every record has a parsed datetime in
`交易时间` and a parsed decimal in `金额`. -/
def validOutput (d : Df) : Prop :=
  ∃ it im, d.cols.findIdx? (· == "交易时间") = some it ∧
    d.cols.findIdx? (· == "金额") = some im ∧
    ∀ r ∈ d.rows, (∃ t, getCell r it = vdate t) ∧
      (∃ n ip fp, getCell r im = vnum n ip fp)

/-- A found column name is a member of the list. -/
theorem findIdx?_some_mem (l : List String) (c : String) (i : Nat)
    (h : l.findIdx? (· == c) = some i) : c ∈ l := by
  obtain ⟨hlt, hname⟩ := findIdx?_beq_getD l c i h
  rw [← hname, List.getD_eq_getElem?_getD, List.getElem?_eq_getElem hlt]
  exact List.getElem_mem hlt

/-- Every frame the merger keeps satisfies one of the two source
invariants. -/
theorem kept_frame_inv (wf ac ax : List TabFile) (dk : Df)
    (h : dk ∈ keptWechat wf ++ (keptAlipay ac ++ keptAlipay ax)) :
    dfInv "微信支付" wechatNeutral dk ∨ dfInv "支付宝" alipayNeutral dk := by
  rcases List.mem_append.mp h with hk | hk
  · obtain ⟨f, hf⟩ := keptWechat_from wf dk hk
    exact Or.inl (process_wechat_inv f dk hf)
  · rcases List.mem_append.mp hk with hk2 | hk2
    · obtain ⟨f, hf⟩ := keptAlipay_from ac dk hk2
      exact Or.inr (process_alipay_inv f dk hf)
    · obtain ⟨f, hf⟩ := keptAlipay_from ax dk hk2
      exact Or.inr (process_alipay_inv f dk hf)

/-- C5: in the final output of either adapter, and of the merged dataset,
every record's timestamp is a parsed (non-null) datetime and its amount a
parsed (non-null) decimal — records failing either coercion were discarded
whole. -/
theorem c5_null_rejection :
    (∀ f d, process_wechat_file f = some d → validOutput d) ∧
    (∀ f d, process_alipay_file f = .ok (some d) → validOutput d) ∧
    (∀ wf ac ax d, find_and_process_all_files wf ac ax = .ok (some d) →
      validOutput d) := by
  refine ⟨?_, ?_, ?_⟩
  · intro f d h
    obtain ⟨⟨it, hit, htime⟩, ⟨im, him, hamt⟩, -, -⟩ := process_wechat_inv f d h
    exact ⟨it, im, hit, him, fun r hr => ⟨htime r hr, hamt r hr⟩⟩
  · intro f d h
    obtain ⟨⟨it, hit, htime⟩, ⟨im, him, hamt⟩, -, -⟩ := process_alipay_inv f d h
    exact ⟨it, im, hit, him, fun r hr => ⟨htime r hr, hamt r hr⟩⟩
  · intro wf ac ax d h
    obtain ⟨-, hnonempty, hd⟩ := merger_ok_eq wf ac ax d h
    have hdc : d.cols =
        (concatDfs (keptWechat wf ++ (keptAlipay ac ++ keptAlipay ax))).cols := by
      rw [hd]
      split
      · rw [sortByTimeDesc_cols]
      · rfl
    obtain ⟨dk0, hdk0⟩ := List.exists_mem_of_ne_nil _ hnonempty
    have hmem : "交易时间" ∈ d.cols ∧ "金额" ∈ d.cols := by
      rw [hdc, mem_concatDfs_cols, mem_concatDfs_cols]
      rcases kept_frame_inv wf ac ax dk0 hdk0 with hw | ha
      · obtain ⟨⟨it0, hit0, -⟩, ⟨im0, him0, -⟩, -, -⟩ := hw
        exact ⟨⟨dk0, hdk0, findIdx?_some_mem _ _ _ hit0⟩,
          ⟨dk0, hdk0, findIdx?_some_mem _ _ _ him0⟩⟩
      · obtain ⟨⟨it0, hit0, -⟩, ⟨im0, him0, -⟩, -, -⟩ := ha
        exact ⟨⟨dk0, hdk0, findIdx?_some_mem _ _ _ hit0⟩,
          ⟨dk0, hdk0, findIdx?_some_mem _ _ _ him0⟩⟩
    obtain ⟨it, hit⟩ := hasCol_findIdx? d.cols "交易时间"
      ((contains_eq_mem_str _ _).mpr hmem.1)
    obtain ⟨im, him⟩ := hasCol_findIdx? d.cols "金额"
      ((contains_eq_mem_str _ _).mpr hmem.2)
    refine ⟨it, im, hit, him, ?_⟩
    intro r hr
    obtain ⟨hdc', dk, hdk, hinv, r0, hr0, heq⟩ := merged_row_from wf ac ax d h r hr
    rw [hdc'] at hit him
    have hvT := align_getCell dk.cols r0 _ "交易时间" it hit
    have hvM := align_getCell dk.cols r0 _ "金额" im him
    rw [← heq] at hvT hvM
    rcases hinv with hw | ha
    · obtain ⟨⟨jt, hjt, htime⟩, ⟨jm, hjm, hamt⟩, -, -⟩ := hw
      constructor
      · obtain ⟨t, hts⟩ := htime r0 hr0
        refine ⟨t, ?_⟩
        rw [hvT, hjt]
        exact hts
      · obtain ⟨n, ip, fp, hns⟩ := hamt r0 hr0
        refine ⟨n, ip, fp, ?_⟩
        rw [hvM, hjm]
        exact hns
    · obtain ⟨⟨jt, hjt, htime⟩, ⟨jm, hjm, hamt⟩, -, -⟩ := ha
      constructor
      · obtain ⟨t, hts⟩ := htime r0 hr0
        refine ⟨t, ?_⟩
        rw [hvT, hjt]
        exact hts
      · obtain ⟨n, ip, fp, hns⟩ := hamt r0 hr0
        refine ⟨n, ip, fp, ?_⟩
        rw [hvM, hjm]
        exact hns

/-- The adapted output of the C5 witness WeChat file. -/
def c5WechatOut : Df :=
  { cols := ["交易时间", "交易分类", "交易对方", "商品说明", "收/支", "金额",
             "收/付款方式", "数据源"]
    rows := [[vdate 20240601120000, vstr "商户消费", vstr "商户己", vstr "商品G",
              vstr "支出", vnum false [3] [5], vstr "零钱", vstr "微信支付"]] }

/-- C5 witness: the null-rejection invariant instantiated on a concrete
WeChat adaptation. -/
theorem c5_null_rejection_witness :
    process_wechat_file c7GoodWechat = some c5WechatOut ∧ validOutput c5WechatOut :=
  ⟨by rfl, c5_null_rejection.1 c7GoodWechat c5WechatOut (by rfl)⟩
